import Mathlib

/-!
Verification of the room-aware multiplayer relay server (src/unnamed/part_001)
and, where a claim touches it, the global-broadcast variant (src/server.js).

The server is JavaScript; we use a shallow embedding:
* JavaScript numbers are modelled by `JSNum`: an exact rational, `posInf`,
  `negInf` or `nan`.  Arithmetic on finite values is exact rational
  arithmetic (no rounding); the constant `Math.PI` is modelled by `piQ`,
  the exact rational value of the IEEE-754 double `Math.PI`.
* JavaScript objects used as maps (`players`, `activeNicknames`) are
  association lists with JS semantics: assignment to an existing key
  updates in place, a fresh key is appended, `delete` removes the key.
* Each socket.io handler becomes one case of an executable step function
  `step : ServerState → Event → Option (ServerState × List Out)`;
  `none` models divergence of the handler (the only such case is the
  rotation-normalization loop on an infinite input).
* Emitted messages are recorded as a list of `Out` values
  (`io.to(room).emit` = `Out.toRoom`, `socket.to(room).emit` =
  `Out.toRoomExcept`, `socket.emit` = `Out.toSocket`,
  `socket.disconnect()` = `Out.disconnectSock`).
-/

/-- A JavaScript number: an exact rational, `Infinity`, `-Infinity` or `NaN`. -/
inductive JSNum where
  | num (q : ℚ)
  | posInf
  | negInf
  | nan
deriving DecidableEq

/-- The exact rational value of the IEEE-754 double `Math.PI`
(`0x400921FB54442D18` = 884279719003555 / 2^48). -/
def piQ : ℚ := 884279719003555 / 281474976710656

/-- `Number(v) || 0` applied to a possibly missing field (`undefined`
converts to `NaN`, and `NaN` and `0` are falsy, giving `0`). -/
def toNumOr0 : Option JSNum → JSNum
  | some (.num q) => .num q
  | some .posInf => .posInf
  | some .negInf => .negInf
  | _ => .num 0

/-- `Number(a) || 0` on a value that is already a number. -/
def numOr0 : JSNum → JSNum
  | .nan => .num 0
  | v => v

/-- `Math.min` on two JS numbers. -/
def jsMin : JSNum → JSNum → JSNum
  | .nan, _ => .nan
  | _, .nan => .nan
  | .negInf, _ => .negInf
  | _, .negInf => .negInf
  | .posInf, b => b
  | a, .posInf => a
  | .num a, .num b => .num (min a b)

/-- `Math.max` on two JS numbers. -/
def jsMax : JSNum → JSNum → JSNum
  | .nan, _ => .nan
  | _, .nan => .nan
  | .posInf, _ => .posInf
  | _, .posInf => .posInf
  | .negInf, b => b
  | a, .negInf => a
  | .num a, .num b => .num (max a b)

/-- JS subtraction `a - b`. -/
def jsSub : JSNum → JSNum → JSNum
  | .nan, _ => .nan
  | _, .nan => .nan
  | .posInf, .posInf => .nan
  | .posInf, _ => .posInf
  | .negInf, .negInf => .nan
  | .negInf, _ => .negInf
  | .num _, .posInf => .negInf
  | .num _, .negInf => .posInf
  | .num a, .num b => .num (a - b)

/-- `function clamp(v, min, max) { return Math.max(min, Math.min(max, Number(v) || 0)); }`
applied to a possibly missing field. -/
def clamp (v : Option JSNum) (lo hi : ℚ) : JSNum :=
  jsMax (.num lo) (jsMin (.num hi) (toNumOr0 v))

/-- The guard of the first `while` loop of `normalizeAngle`: `a > Math.PI`. -/
def jsGtPi : JSNum → Bool
  | .num q => decide (piQ < q)
  | .posInf => true
  | _ => false

/-- The guard of the second `while` loop of `normalizeAngle`: `a < -Math.PI`. -/
def jsLtNegPi : JSNum → Bool
  | .num q => decide (q < -piQ)
  | .negInf => true
  | _ => false

/-- The first `while` loop of `normalizeAngle`
(`while (a > Math.PI) a -= Math.PI * 2;`) run with explicit fuel;
`none` means the fuel ran out with the guard still true. -/
def whileGtPi : Nat → JSNum → Option JSNum
  | 0, a => if jsGtPi a then none else some a
  | n + 1, a => if jsGtPi a then whileGtPi n (jsSub a (.num (piQ * 2))) else some a

/-- Iteration count of the first `normalizeAngle` loop on a finite value. -/
def downSteps (a : ℚ) : ℕ := (⌈(a - piQ) / (piQ * 2)⌉).toNat

/-- The first `normalizeAngle` loop on a finite value, with inlined fuel. -/
def downFuel : ℕ → ℚ → ℚ
  | 0, a => a
  | n + 1, a => if piQ < a then downFuel n (a - piQ * 2) else a

/-- The first `normalizeAngle` loop (`while (a > Math.PI) a -= Math.PI * 2;`)
on a finite value: runs for exactly `downSteps a` iterations. -/
def loopDown (a : ℚ) : ℚ := downFuel (downSteps a) a

/-- Iteration count of the second `normalizeAngle` loop on a finite value. -/
def upSteps (a : ℚ) : ℕ := (⌈(-piQ - a) / (piQ * 2)⌉).toNat

/-- The second `normalizeAngle` loop on a finite value, with inlined fuel. -/
def upFuel : ℕ → ℚ → ℚ
  | 0, a => a
  | n + 1, a => if a < -piQ then upFuel n (a + piQ * 2) else a

/-- The second `normalizeAngle` loop (`while (a < -Math.PI) a += Math.PI * 2;`)
on a finite value: runs for exactly `upSteps a` iterations. -/
def loopUp (a : ℚ) : ℚ := upFuel (upSteps a) a

/-- Both loops of `normalizeAngle` on a finite value. -/
def normQ (a : ℚ) : ℚ := loopUp (loopDown a)

/-- `function normalizeAngle(a)`: `a = Number(a) || 0` followed by the two
`while` loops.  On `Infinity` or `-Infinity` the corresponding loop never
terminates (subtracting or adding `2π` leaves the value unchanged), which we
model as `none`. -/
def normalizeAngle (a : JSNum) : Option JSNum :=
  match numOr0 a with
  | .num q => some (.num (normQ q))
  | _ => none

-- Basic facts about `piQ` and the loops.

theorem piQ_pos : 0 < piQ := by norm_num [piQ]

theorem loopDown_of_not_gt {a : ℚ} (h : ¬ piQ < a) : loopDown a = a := by
  unfold loopDown
  cases hs : downSteps a with
  | zero => rfl
  | succ n => simp [downFuel, h]

theorem downSteps_of_gt {a : ℚ} (h : piQ < a) :
    downSteps a = downSteps (a - piQ * 2) + 1 := by
  have h2 : (0:ℚ) < piQ * 2 := by have := piQ_pos; linarith
  have hx : (a - piQ * 2 - piQ) / (piQ * 2) = (a - piQ) / (piQ * 2) - 1 := by
    field_simp
    ring
  have hpos : 0 < (a - piQ) / (piQ * 2) := by
    apply div_pos _ h2
    linarith
  have hceil : 1 ≤ ⌈(a - piQ) / (piQ * 2)⌉ := by
    exact Int.ceil_pos.mpr hpos
  unfold downSteps
  rw [hx, Int.ceil_sub_one]
  omega

theorem loopDown_of_gt {a : ℚ} (h : piQ < a) :
    loopDown a = loopDown (a - piQ * 2) := by
  unfold loopDown
  rw [downSteps_of_gt h]
  simp [downFuel, h]

theorem loopDown_le (a : ℚ) : loopDown a ≤ piQ := by
  by_cases h : piQ < a
  · have : downSteps (a - piQ * 2) < downSteps a := by
      rw [downSteps_of_gt h]; omega
    rw [loopDown_of_gt h]
    exact loopDown_le (a - piQ * 2)
  · rw [loopDown_of_not_gt h]; linarith [not_lt.mp h]
termination_by downSteps a

theorem loopUp_of_not_lt {a : ℚ} (h : ¬ a < -piQ) : loopUp a = a := by
  unfold loopUp
  cases hs : upSteps a with
  | zero => rfl
  | succ n => simp [upFuel, h]

theorem upSteps_of_lt {a : ℚ} (h : a < -piQ) :
    upSteps a = upSteps (a + piQ * 2) + 1 := by
  have h2 : (0:ℚ) < piQ * 2 := by have := piQ_pos; linarith
  have hx : (-piQ - (a + piQ * 2)) / (piQ * 2) = (-piQ - a) / (piQ * 2) - 1 := by
    field_simp
    ring
  have hpos : 0 < (-piQ - a) / (piQ * 2) := by
    apply div_pos _ h2
    linarith
  have hceil : 1 ≤ ⌈(-piQ - a) / (piQ * 2)⌉ := Int.ceil_pos.mpr hpos
  unfold upSteps
  rw [hx, Int.ceil_sub_one]
  omega

theorem loopUp_of_lt {a : ℚ} (h : a < -piQ) :
    loopUp a = loopUp (a + piQ * 2) := by
  unfold loopUp
  rw [upSteps_of_lt h]
  simp [upFuel, h]

theorem loopUp_ge (a : ℚ) : -piQ ≤ loopUp a := by
  by_cases h : a < -piQ
  · have : upSteps (a + piQ * 2) < upSteps a := by
      rw [upSteps_of_lt h]; omega
    rw [loopUp_of_lt h]
    exact loopUp_ge (a + piQ * 2)
  · rw [loopUp_of_not_lt h]; linarith [not_lt.mp h]
termination_by upSteps a

theorem loopUp_le {a : ℚ} (ha : a ≤ piQ) : loopUp a ≤ piQ := by
  by_cases h : a < -piQ
  · have : upSteps (a + piQ * 2) < upSteps a := by
      rw [upSteps_of_lt h]; omega
    rw [loopUp_of_lt h]
    have := piQ_pos
    exact loopUp_le (by linarith)
  · rw [loopUp_of_not_lt h]; exact ha
termination_by upSteps a

/-- The result of the two normalization loops lies in `[-π, π]`. -/
theorem normQ_mem (a : ℚ) : -piQ ≤ normQ a ∧ normQ a ≤ piQ :=
  ⟨loopUp_ge _, loopUp_le (loopDown_le a)⟩

/-- `normalizeAngle` leaves a value already in `[-π, π]` unchanged. -/
theorem normQ_of_mem {a : ℚ} (h1 : -piQ ≤ a) (h2 : a ≤ piQ) : normQ a = a := by
  unfold normQ
  rw [loopDown_of_not_gt (by linarith), loopUp_of_not_lt (by linarith)]

/-- Whatever fuel it is given, the first `normalizeAngle` loop never exits
when started at `Infinity`: `Infinity - 2π = Infinity`. -/
theorem whileGtPi_posInf (n : ℕ) : whileGtPi n .posInf = none := by
  induction n with
  | zero => rfl
  | succ n ih => simpa [whileGtPi, jsGtPi, jsSub] using ih

/-- A clamped value is the finite rational `max lo (min hi q)` when the
input is finite, `hi` on `Infinity`, `lo` on `-Infinity`, `0`-based on
anything else.  In particular it always lies in `[lo, hi]`. -/
theorem clamp_mem (v : Option JSNum) {lo hi : ℚ} (hlh : lo ≤ hi) :
    ∃ q : ℚ, clamp v lo hi = .num q ∧ lo ≤ q ∧ q ≤ hi := by
  unfold clamp
  match htv : toNumOr0 v with
  | .num q =>
      refine ⟨max lo (min hi q), by simp [jsMin, jsMax], le_max_left _ _, ?_⟩
      simp only [max_le_iff]
      exact ⟨hlh, min_le_left _ _⟩
  | .posInf => exact ⟨hi, by simp [jsMin, jsMax, hlh], hlh, le_refl _⟩
  | .negInf => exact ⟨lo, by simp [jsMin, jsMax], le_refl _, hlh⟩
  | .nan => cases v with
      | none => simp [toNumOr0] at htv
      | some w => cases w <;> simp [toNumOr0] at htv

-- ## Association lists with JavaScript object semantics

/-- JS property read `obj[k]`. -/
def getEntry {α : Type} (k : ℕ) : List (ℕ × α) → Option α
  | [] => none
  | (k', v) :: rest => if k' = k then some v else getEntry k rest

/-- JS property write `obj[k] = v`: update in place, or append a new key. -/
def setEntry {α : Type} (k : ℕ) (v : α) : List (ℕ × α) → List (ℕ × α)
  | [] => [(k, v)]
  | (k', v') :: rest => if k' = k then (k, v) :: rest else (k', v') :: setEntry k v rest

/-- JS `delete obj[k]`. -/
def removeEntry {α : Type} (k : ℕ) (l : List (ℕ × α)) : List (ℕ × α) :=
  l.filter (fun e => !(e.1 == k))

theorem getEntry_setEntry_self {α : Type} (k : ℕ) (v : α) (l : List (ℕ × α)) :
    getEntry k (setEntry k v l) = some v := by
  induction l with
  | nil => simp [getEntry, setEntry]
  | cons hd tl ih =>
      by_cases h : hd.1 = k
      · simp [getEntry, setEntry, h]
      · simpa [getEntry, setEntry, h] using ih

theorem getEntry_setEntry_ne {α : Type} {j k : ℕ} (h : j ≠ k) (v : α) (l : List (ℕ × α)) :
    getEntry j (setEntry k v l) = getEntry j l := by
  induction l with
  | nil => simp [getEntry, setEntry, Ne.symm h]
  | cons hd tl ih =>
      obtain ⟨k', v'⟩ := hd
      by_cases hk : k' = k
      · have hj : k' ≠ j := by rw [hk]; exact Ne.symm h
        simp [getEntry, setEntry, hk, hj, Ne.symm h]
      · by_cases hj : k' = j
        · simp [getEntry, setEntry, hk, hj, h]
        · simpa [getEntry, setEntry, hk, hj] using ih

theorem getEntry_removeEntry_self {α : Type} (k : ℕ) (l : List (ℕ × α)) :
    getEntry k (removeEntry k l) = none := by
  induction l with
  | nil => rfl
  | cons hd tl ih =>
      by_cases h : hd.1 = k
      · simpa [removeEntry, h] using ih
      · simpa [removeEntry, getEntry, h] using ih

theorem getEntry_removeEntry_ne {α : Type} {j k : ℕ} (h : j ≠ k) (l : List (ℕ × α)) :
    getEntry j (removeEntry k l) = getEntry j l := by
  induction l with
  | nil => rfl
  | cons hd tl ih =>
      obtain ⟨k', v'⟩ := hd
      by_cases hk : k' = k
      · have hj : k' ≠ j := by rw [hk]; exact Ne.symm h
        simpa [removeEntry, getEntry, hk, hj, Ne.symm h] using ih
      · by_cases hj : k' = j
        · simp [removeEntry, getEntry, hk, hj, h]
        · simpa [removeEntry, getEntry, hk, hj] using ih

-- ## Data model of the room-aware server (src/unnamed/part_001)

/-- The four cosmetic color slots. -/
structure Colors where
  head : String
  torso : String
  arms : String
  legs : String
deriving DecidableEq

/-- One entry of the `players` map, as created by the `register` handler and
mutated by `playerMove` / `playerCustomize` / `equipHat`.  `nickname` is
`socket.nickname`, which is `undefined` (`none`) until registration;
`isInAir` is absent (`none`) until the first accepted move. -/
structure PlayerState where
  id : ℕ
  nickname : Option String
  room : String
  x : JSNum
  y : JSNum
  z : JSNum
  rotation : JSNum
  isMoving : Bool
  isInAir : Option Bool
  colors : Colors
  hatId : Option ℕ
deriving DecidableEq

/-- Per-socket fields the handlers read and write: `socket.roomName`,
`socket.nickname`, `socket.lastMoveAt`, `socket.lastDaniel`. -/
structure ConnState where
  roomName : String
  nickname : Option String
  lastMoveAt : Option ℚ
  lastDaniel : Option ℚ
deriving DecidableEq

/-- The server's mutable state: the sockets, the `players` map and the
`activeNicknames` map. -/
structure ServerState where
  conns : List (ℕ × ConnState)
  players : List (ℕ × PlayerState)
  activeNicknames : List (ℕ × String)
deriving DecidableEq

/-- The state before any connection. -/
def initState : ServerState := ⟨[], [], []⟩

/-- Payload of a `playerMove` message.  Position/rotation fields may be
missing or non-numeric (`x y z rotation : Option JSNum`, `none` = missing);
the flags are the truthiness of `data?.isMoving` / `data?.isInAir`. -/
structure MoveData where
  x : Option JSNum
  y : Option JSNum
  z : Option JSNum
  rotation : Option JSNum
  isMoving : Bool
  isInAir : Bool
deriving DecidableEq

/-- A server-to-client message. -/
inductive Msg where
  | nicknameError (text : String)
  | initialPlayers (ps : List (ℕ × PlayerState))
  | playerJoined (p : PlayerState)
  | chatMsg (playerId : ℕ) (nickname : Option String) (message : String)
  | playerHatChanged (playerId : ℕ) (hatId : Option ℕ)
  | remoteEquip (playerId : ℕ) (tool : String)
  | remoteUnequip (playerId : ℕ) (tool : String)
  | danceMsg (playerId : ℕ)
  | stopDanceMsg (playerId : ℕ)
  | spawnRocket (payload : String)
  | explosionMsg (payload : String)
  | playerDied (killer victim : String)
  | playerRagdollMsg (payload : String)
  | danielEvent
  | adminExplodeMsg (target : String)
  | playerLeft (playerId : ℕ)
  | gameState (st : List (ℕ × PlayerState))
deriving DecidableEq

/-- An observable transport action: `socket.emit`, `io.to(room).emit`,
`socket.to(room).emit`, or `socket.disconnect()`. -/
inductive Out where
  | toSocket (sid : ℕ) (m : Msg)
  | toRoom (room : String) (m : Msg)
  | toRoomExcept (room : String) (sender : ℕ) (m : Msg)
  | disconnectSock (sid : ℕ)
deriving DecidableEq

/-- A client-supplied handshake `auth.room` value, abstracted by the two
observations the connection code makes of it: its JS truthiness and its
`String()` image.  A plain string `s` is `⟨s ≠ "", s⟩` (the empty string is
falsy); a truthy non-string may stringify to anything — e.g. `[]` is
`⟨true, ""⟩`; a missing `handshake`/`auth`/`room` is `none` (falsy). -/
structure AuthRoom where
  truthy : Bool
  str : String
deriving DecidableEq

/-- A client-to-server event (plus transport-level connect/disconnect).
`now` arguments stand for the value of `Date.now()` when the handler runs. -/
inductive Event where
  | connect (sid : ℕ) (authRoom : Option AuthRoom)
  | register (sid : ℕ) (nickname : String)
  | playerMove (sid : ℕ) (now : ℚ) (data : MoveData)
  | chat (sid : ℕ) (msg : String)
  | playerCustomize (sid : ℕ) (colors : Colors)
  | equipHat (sid : ℕ) (hatId : Option ℕ)
  | equipTool (sid : ℕ) (tool : String)
  | unequipTool (sid : ℕ) (tool : String)
  | dance (sid : ℕ)
  | stopDance (sid : ℕ)
  | launchRocket (sid : ℕ) (payload : String)
  | explosion (sid : ℕ) (payload : String)
  | playerHit (sid : ℕ) (killer victim : String)
  | playerRagdoll (sid : ℕ) (payload : String)
  | danielCommand (sid : ℕ) (now : ℚ)
  | adminExplode (sid : ℕ) (target : String)
  | adminFly (sid : ℕ) (target : String)
  | disconnect (sid : ℕ)
deriving DecidableEq

/-- `const WORLD_BOUNDS = { xz: 250, yMin: 0, yMax: 500 }`. -/
def worldXZ : ℚ := 250

def worldYMin : ℚ := 0

def worldYMax : ℚ := 500

/-- `const MAX_MOVE_RATE = 30`. -/
def MAX_MOVE_RATE : ℚ := 30

/-- The room a fresh socket joins:
`(socket.handshake && socket.handshake.auth && socket.handshake.auth.room)
? String(socket.handshake.auth.room) : 'default'`.  Truthiness is tested on
the raw value, before stringification, so a truthy value whose `String()`
image is `""` (such as `[]`) yields the empty room name. -/
def roomOf (authRoom : Option AuthRoom) : String :=
  match authRoom with
  | some v => if v.truthy then v.str else "default"
  | none => "default"

/-- The error text sent on a duplicate nickname. -/
def nickErrText : String :=
  "A sua conta já está sendo usada neste mesmo momento por favor saia do jogo e troque a conta"

/-- The default cosmetic colors of a fresh player. -/
def defaultColors : Colors :=
  { head := "#FAD417", torso := "#00A2FF", arms := "#FAD417", legs := "#80C91C" }

/-- The PlayerState object literal built by the `register` handler. -/
def newPlayer (sid : ℕ) (nickname room : String) : PlayerState :=
  { id := sid, nickname := some nickname, room := room,
    x := .num 0, y := .num 3, z := .num 0, rotation := .num 0,
    isMoving := false, isInAir := none, colors := defaultColors, hatId := none }

/-- `Object.values(activeNicknames).includes(nickname)`. -/
def nickInUse (reg : List (ℕ × String)) (n : String) : Bool :=
  reg.any (fun e => e.2 == n)

/-- The `playerMove` rate-limit guard:
`socket.lastMoveAt && now - socket.lastMoveAt < (1000 / MAX_MOVE_RATE)`
(an unset or `0` timestamp is falsy). -/
def rateLimited (last : Option ℚ) (now : ℚ) : Bool :=
  match last with
  | none => false
  | some t => (t != 0) && decide (now - t < 1000 / MAX_MOVE_RATE)

/-- The `danielCommand` cooldown guard:
`socket.lastDaniel && Date.now() - socket.lastDaniel < 20000`. -/
def danielLimited (last : Option ℚ) (now : ℚ) : Bool :=
  match last with
  | none => false
  | some t => (t != 0) && decide (now - t < 20000)

/-- `socket.to(roomName).emit(m)` relays, provided the socket exists. -/
def relayExcept (s : ServerState) (sid : ℕ) (m : Msg) : Option (ServerState × List Out) :=
  match getEntry sid s.conns with
  | none => some (s, [])
  | some c => some (s, [.toRoomExcept c.roomName sid m])

/-- `io.to(roomName).emit(m)` relays, provided the socket exists. -/
def relayRoom (s : ServerState) (sid : ℕ) (m : Msg) : Option (ServerState × List Out) :=
  match getEntry sid s.conns with
  | none => some (s, [])
  | some c => some (s, [.toRoom c.roomName m])

/-- One event-loop task of the room-aware server: the socket.io handler for
the given event, run to completion.  Returns the new state and the emitted
transport actions, or `none` when the handler diverges (which happens exactly
when `normalizeAngle` is entered with an infinite rotation). -/
def step (s : ServerState) (e : Event) : Option (ServerState × List Out) :=
  match e with
  | .connect sid authRoom =>
      -- socket ids are unique, so a connect for an id that is still connected
      -- cannot occur; we make it a no-op.
      match getEntry sid s.conns with
      | some _ => some (s, [])
      | none =>
          some ({ s with conns := setEntry sid ⟨roomOf authRoom, none, none, none⟩ s.conns }, [])
  | .register sid nickname =>
      match getEntry sid s.conns with
      | none => some (s, [])
      | some c =>
          if nickInUse s.activeNicknames nickname then
            some (s, [.toSocket sid (.nicknameError nickErrText), .disconnectSock sid])
          else
            let p := newPlayer sid nickname c.roomName
            let players' := setEntry sid p s.players
            let roomPlayers := players'.filter (fun q => q.2.room == c.roomName)
            some ({ conns := setEntry sid { c with nickname := some nickname } s.conns,
                    players := players',
                    activeNicknames := setEntry sid nickname s.activeNicknames },
                  [.toSocket sid (.initialPlayers roomPlayers),
                   .toRoomExcept c.roomName sid (.playerJoined p)])
  | .playerMove sid now data =>
      match getEntry sid s.conns with
      | none => some (s, [])
      | some c =>
          if rateLimited c.lastMoveAt now then some (s, [])
          else
            let conns' := setEntry sid { c with lastMoveAt := some now } s.conns
            match getEntry sid s.players with
            | none => some ({ s with conns := conns' }, [])
            | some p =>
                match normalizeAngle (data.rotation.getD (.num 0)) with
                | none => none
                | some rot =>
                    let p' := { p with
                      x := clamp data.x (-worldXZ) worldXZ,
                      y := clamp data.y worldYMin worldYMax,
                      z := clamp data.z (-worldXZ) worldXZ,
                      rotation := rot,
                      isMoving := data.isMoving,
                      isInAir := some data.isInAir,
                      nickname := c.nickname }
                    some ({ s with conns := conns', players := setEntry sid p' s.players }, [])
  | .chat sid msg =>
      match getEntry sid s.conns with
      | none => some (s, [])
      | some c => some (s, [.toRoom c.roomName (.chatMsg sid c.nickname msg)])
  | .playerCustomize sid colors =>
      match getEntry sid s.conns with
      | none => some (s, [])
      | some _ =>
          match getEntry sid s.players with
          | some p =>
              some ({ s with players := setEntry sid { p with colors := colors } s.players }, [])
          | none => some (s, [])
  | .equipHat sid hatId =>
      match getEntry sid s.conns with
      | none => some (s, [])
      | some c =>
          let s' := match getEntry sid s.players with
            | some p => { s with players := setEntry sid { p with hatId := hatId } s.players }
            | none => s
          some (s', [.toRoom c.roomName (.playerHatChanged sid hatId)])
  | .equipTool sid tool => relayExcept s sid (.remoteEquip sid tool)
  | .unequipTool sid tool => relayExcept s sid (.remoteUnequip sid tool)
  | .dance sid => relayExcept s sid (.danceMsg sid)
  | .stopDance sid => relayExcept s sid (.stopDanceMsg sid)
  | .launchRocket sid payload => relayRoom s sid (.spawnRocket payload)
  | .explosion sid payload => relayRoom s sid (.explosionMsg payload)
  | .playerHit sid killer victim => relayRoom s sid (.playerDied killer victim)
  | .playerRagdoll sid payload => relayRoom s sid (.playerRagdollMsg payload)
  | .danielCommand sid now =>
      match getEntry sid s.conns with
      | none => some (s, [])
      | some c =>
          if c.nickname == some "daniel244" then
            if danielLimited c.lastDaniel now then some (s, [])
            else
              some ({ s with conns := setEntry sid { c with lastDaniel := some now } s.conns },
                    [.toRoom c.roomName .danielEvent])
          else some (s, [])
  | .adminExplode sid target =>
      match getEntry sid s.conns with
      | none => some (s, [])
      | some c =>
          if c.nickname == some "notrealregi" then
            if s.players.any (fun q => q.2.room == c.roomName && q.2.nickname == some target) then
              some (s, [.toRoom c.roomName (.adminExplodeMsg target)])
            else some (s, [])
          else some (s, [])
  -- the server registers no handler for the adminFly event, so receiving it
  -- does nothing
  | .adminFly _ _ => some (s, [])
  | .disconnect sid =>
      match getEntry sid s.conns with
      | none => some (s, [])
      | some c =>
          let r := match getEntry sid s.players with
            | some p => if p.room = "" then c.roomName else p.room
            | none => c.roomName
          some ({ conns := removeEntry sid s.conns,
                  players := removeEntry sid s.players,
                  activeNicknames := removeEntry sid s.activeNicknames },
                [.toRoom r (.playerLeft sid)])

/-- Run a sequence of event-loop tasks from a given state. -/
def runEvents (s : ServerState) : List Event → Option ServerState
  | [] => some s
  | e :: es =>
      match step s e with
      | none => none
      | some (s', _) => runEvents s' es

/-- A state is reachable when some event sequence produces it from the
empty initial state. -/
def Reachable (s : ServerState) : Prop :=
  ∃ evs : List Event, runEvents initState evs = some s

-- ## The broadcast scheduler (the `setInterval` game loop)

/-- `const r = p.room || 'default'` — the partition key of the game loop. -/
def roomKey (p : PlayerState) : String :=
  if p.room = "" then "default" else p.room

/-- `byRoom[r][id] = p` with JS object semantics: a new room key is appended,
an entry is appended to its room's object in iteration order. -/
def insertByRoom (r : String) (e : ℕ × PlayerState) :
    List (String × List (ℕ × PlayerState)) → List (String × List (ℕ × PlayerState))
  | [] => [(r, [e])]
  | (r', l) :: rest =>
      if r' = r then (r', l ++ [e]) :: rest else (r', l) :: insertByRoom r e rest

/-- The `byRoom` partition built by one game-loop tick. -/
def byRoom (ps : List (ℕ × PlayerState)) : List (String × List (ℕ × PlayerState)) :=
  ps.foldl (fun acc q => insertByRoom (roomKey q.2) q acc) []

/-- One tick of the game loop: emit to each room the `gameState` snapshot of
its partition. -/
def tick (s : ServerState) : List Out :=
  (byRoom s.players).map (fun rl => .toRoom rl.1 (.gameState rl.2))

-- ## The global-broadcast variant (src/server.js): the damage handler

/-- A player record of the global-broadcast variant (`src/server.js`).
`health` and `dead` are absent (`none`) until a `damage` message writes
them. -/
structure GPlayer where
  id : ℕ
  x : JSNum
  y : JSNum
  z : JSNum
  rotation : JSNum
  isMoving : Bool
  colors : Colors
  health : Option JSNum
  dead : Option Bool
deriving DecidableEq

/-- The player record created at connect time in `src/server.js`. -/
def newGPlayer (sid : ℕ) : GPlayer :=
  { id := sid, x := .num 0, y := .num 3, z := .num 0, rotation := .num 0,
    isMoving := false, colors := defaultColors, health := none, dead := none }

/-- Reading a possibly absent numeric property for arithmetic:
`undefined` becomes `NaN`. -/
def propNum (v : Option JSNum) : JSNum := v.getD .nan

/-- `health <= 0` in JS: comparisons with `NaN` are false. -/
def jsLeZero : JSNum → Bool
  | .num q => decide (q ≤ 0)
  | .negInf => true
  | _ => false

/-- Payload of a `damage` message in `src/server.js`. -/
structure DamageData where
  targetId : ℕ
  amount : Option JSNum
deriving DecidableEq

/-- An emission of the global-broadcast variant (`io.emit`). -/
inductive GOut where
  | emitAllGameState (ps : List (ℕ × GPlayer))
deriving DecidableEq

/-- The `damage` handler of `src/server.js`: if the target exists,
`players[data.targetId].health = Math.max(0, players[data.targetId].health - data.amount)`,
`players[data.targetId].dead = players[data.targetId].health <= 0`, then
`io.emit('gameState', players)`.  The sender socket is irrelevant to the
mutation: the target is taken from the payload. -/
def damageHandler (players : List (ℕ × GPlayer)) (data : DamageData) :
    List (ℕ × GPlayer) × List GOut :=
  match getEntry data.targetId players with
  | none => (players, [])
  | some p =>
      let h := jsMax (.num 0) (jsSub (propNum p.health) (propNum data.amount))
      let p' := { p with health := some h, dead := some (jsLeZero h) }
      let players' := setEntry data.targetId p' players
      (players', [.emitAllGameState players'])

theorem getEntry_mem {α : Type} {k : ℕ} {v : α} {l : List (ℕ × α)}
    (h : getEntry k l = some v) : (k, v) ∈ l := by
  induction l with
  | nil => cases h
  | cons hd tl ih =>
      obtain ⟨k', v'⟩ := hd
      simp only [getEntry] at h
      by_cases hk : k' = k
      · rw [if_pos hk] at h
        injection h with h
        subst h
        subst hk
        exact List.mem_cons_self _ _
      · rw [if_neg hk] at h
        exact List.mem_cons_of_mem _ (ih h)

theorem mem_setEntry {α : Type} {k : ℕ} {v : α} {l : List (ℕ × α)} {q : ℕ × α}
    (h : q ∈ setEntry k v l) : q = (k, v) ∨ q ∈ l := by
  induction l with
  | nil => simpa [setEntry] using h
  | cons hd tl ih =>
      obtain ⟨k', v'⟩ := hd
      by_cases hk : k' = k
      · rw [setEntry, if_pos hk] at h
        rcases List.mem_cons.mp h with rfl | h2
        · exact Or.inl rfl
        · exact Or.inr (List.mem_cons_of_mem _ h2)
      · rw [setEntry, if_neg hk] at h
        rcases List.mem_cons.mp h with rfl | h2
        · exact Or.inr (List.mem_cons_self _ _)
        · rcases ih h2 with h3 | h3
          · exact Or.inl h3
          · exact Or.inr (List.mem_cons_of_mem _ h3)

-- ## Reachability invariants

/-- Invariant of every reachable server state: every player's `nickname`
field agrees with its socket's `nickname` field (both are written together
at registration, and `playerMove` re-copies the socket's).  Room names, by
contrast, are *not* always non-empty: a truthy handshake value whose
`String()` image is `""` gives a reachable empty room name. -/
def StInv (s : ServerState) : Prop :=
  ∀ sid p, getEntry sid s.players = some p →
    ∃ c, getEntry sid s.conns = some c ∧ c.nickname = p.nickname

theorem inv_initState : StInv initState := by
  intro sid p h
  simp [initState, getEntry] at h

theorem inv_setConn {s : ServerState} (h : StInv s) {sid : ℕ} {c c' : ConnState}
    (hc : getEntry sid s.conns = some c) (hnick : c'.nickname = c.nickname) :
    StInv { s with conns := setEntry sid c' s.conns } := by
  intro j p hj
  obtain ⟨cj, hcj, hn⟩ := h j p hj
  by_cases hjk : j = sid
  · subst hjk
    refine ⟨c', getEntry_setEntry_self _ _ _, ?_⟩
    rw [hnick]
    rw [hcj] at hc
    cases hc
    exact hn
  · exact ⟨cj, by rw [getEntry_setEntry_ne hjk]; exact hcj, hn⟩

theorem inv_setPlayer {s : ServerState} (h : StInv s) {sid : ℕ} {p p' : PlayerState}
    (hp : getEntry sid s.players = some p) (hnick : p'.nickname = p.nickname) :
    StInv { s with players := setEntry sid p' s.players } := by
  intro j q hj
  by_cases hjk : j = sid
  · subst hjk
    rw [getEntry_setEntry_self] at hj
    cases hj
    obtain ⟨c, hc, hn⟩ := h j p hp
    exact ⟨c, hc, by rw [hnick]; exact hn⟩
  · rw [getEntry_setEntry_ne hjk] at hj
    exact h j q hj

theorem stInv_connect {s : ServerState} (h : StInv s) (sid : ℕ) (authRoom : Option AuthRoom)
    (hnone : getEntry sid s.conns = none) :
    StInv { s with conns := setEntry sid ⟨roomOf authRoom, none, none, none⟩ s.conns } := by
  intro j p hj
  obtain ⟨c, hc, hn⟩ := h j p hj
  by_cases hjk : j = sid
  · subst hjk
    rw [hnone] at hc
    cases hc
  · exact ⟨c, by rw [getEntry_setEntry_ne hjk]; exact hc, hn⟩

theorem stInv_register {s : ServerState} (h : StInv s) {sid : ℕ} {c : ConnState}
    (n : String) :
    StInv { conns := setEntry sid { c with nickname := some n } s.conns,
            players := setEntry sid (newPlayer sid n c.roomName) s.players,
            activeNicknames := setEntry sid n s.activeNicknames } := by
  intro j p hj
  by_cases hjk : j = sid
  · subst hjk
    rw [getEntry_setEntry_self] at hj
    cases hj
    exact ⟨{ c with nickname := some n }, getEntry_setEntry_self _ _ _, rfl⟩
  · rw [getEntry_setEntry_ne hjk] at hj
    obtain ⟨cj, hcj, hn⟩ := h j p hj
    exact ⟨cj, by rw [getEntry_setEntry_ne hjk]; exact hcj, hn⟩

theorem stInv_move {s : ServerState} (h : StInv s) {sid : ℕ} {c' : ConnState}
    {p' : PlayerState} (hpnick : p'.nickname = c'.nickname) :
    StInv { s with conns := setEntry sid c' s.conns,
                   players := setEntry sid p' s.players } := by
  intro j q hj
  by_cases hjk : j = sid
  · subst hjk
    rw [getEntry_setEntry_self] at hj
    cases hj
    exact ⟨c', getEntry_setEntry_self _ _ _, hpnick.symm⟩
  · rw [getEntry_setEntry_ne hjk] at hj
    obtain ⟨cj, hcj, hn⟩ := h j q hj
    exact ⟨cj, by rw [getEntry_setEntry_ne hjk]; exact hcj, hn⟩

theorem stInv_remove {s : ServerState} (h : StInv s) (sid : ℕ) :
    StInv { conns := removeEntry sid s.conns,
            players := removeEntry sid s.players,
            activeNicknames := removeEntry sid s.activeNicknames } := by
  intro j p hj
  by_cases hjk : j = sid
  · subst hjk
    rw [getEntry_removeEntry_self] at hj
    cases hj
  · rw [getEntry_removeEntry_ne hjk] at hj
    obtain ⟨cj, hcj, hn⟩ := h j p hj
    exact ⟨cj, by rw [getEntry_removeEntry_ne hjk]; exact hcj, hn⟩

/-- Every event-loop task preserves the state invariants. -/
theorem stInv_step {s : ServerState} {e : Event} {s' : ServerState} {out : List Out}
    (h : StInv s) (hstep : step s e = some (s', out)) : StInv s' := by
  cases e with
  | connect sid authRoom =>
      simp only [step] at hstep
      cases hcs : getEntry sid s.conns with
      | some c =>
          rw [hcs] at hstep
          simp only [Option.some.injEq, Prod.mk.injEq] at hstep
          obtain ⟨rfl, rfl⟩ := hstep
          exact h
      | none =>
          rw [hcs] at hstep
          simp only [Option.some.injEq, Prod.mk.injEq] at hstep
          obtain ⟨rfl, rfl⟩ := hstep
          exact stInv_connect h sid authRoom hcs
  | register sid nickname =>
      simp only [step] at hstep
      cases hcs : getEntry sid s.conns with
      | none =>
          rw [hcs] at hstep
          simp only [Option.some.injEq, Prod.mk.injEq] at hstep
          obtain ⟨rfl, rfl⟩ := hstep
          exact h
      | some c =>
          rw [hcs] at hstep
          cases hdup : nickInUse s.activeNicknames nickname
          · simp only [hdup, Bool.false_eq_true, if_false, Option.some.injEq,
              Prod.mk.injEq] at hstep
            obtain ⟨rfl, rfl⟩ := hstep
            exact stInv_register h nickname
          · simp only [hdup, if_true, Option.some.injEq, Prod.mk.injEq] at hstep
            obtain ⟨rfl, rfl⟩ := hstep
            exact h
  | playerMove sid now data =>
      simp only [step] at hstep
      cases hcs : getEntry sid s.conns with
      | none =>
          rw [hcs] at hstep
          simp only [Option.some.injEq, Prod.mk.injEq] at hstep
          obtain ⟨rfl, rfl⟩ := hstep
          exact h
      | some c =>
          rw [hcs] at hstep
          cases hrl : rateLimited c.lastMoveAt now
          · simp only [hrl, Bool.false_eq_true, if_false] at hstep
            cases hps : getEntry sid s.players with
            | none =>
                rw [hps] at hstep
                simp only [Option.some.injEq, Prod.mk.injEq] at hstep
                obtain ⟨rfl, rfl⟩ := hstep
                exact inv_setConn h hcs rfl
            | some p =>
                rw [hps] at hstep
                cases hna : normalizeAngle (data.rotation.getD (.num 0)) with
                | none => rw [hna] at hstep; cases hstep
                | some rot =>
                    rw [hna] at hstep
                    simp only [Option.some.injEq, Prod.mk.injEq] at hstep
                    obtain ⟨rfl, rfl⟩ := hstep
                    exact stInv_move h rfl
          · simp only [hrl, if_true, Option.some.injEq, Prod.mk.injEq] at hstep
            obtain ⟨rfl, rfl⟩ := hstep
            exact h
  | chat sid msg =>
      simp only [step] at hstep
      cases hcs : getEntry sid s.conns with
      | none =>
          rw [hcs] at hstep
          simp only [Option.some.injEq, Prod.mk.injEq] at hstep
          obtain ⟨rfl, rfl⟩ := hstep
          exact h
      | some c =>
          rw [hcs] at hstep
          simp only [Option.some.injEq, Prod.mk.injEq] at hstep
          obtain ⟨rfl, rfl⟩ := hstep
          exact h
  | playerCustomize sid colors =>
      simp only [step] at hstep
      cases hcs : getEntry sid s.conns with
      | none =>
          rw [hcs] at hstep
          simp only [Option.some.injEq, Prod.mk.injEq] at hstep
          obtain ⟨rfl, rfl⟩ := hstep
          exact h
      | some c =>
          rw [hcs] at hstep
          cases hps : getEntry sid s.players with
          | none =>
              rw [hps] at hstep
              simp only [Option.some.injEq, Prod.mk.injEq] at hstep
              obtain ⟨rfl, rfl⟩ := hstep
              exact h
          | some p =>
              rw [hps] at hstep
              simp only [Option.some.injEq, Prod.mk.injEq] at hstep
              obtain ⟨rfl, rfl⟩ := hstep
              exact inv_setPlayer h hps rfl
  | equipHat sid hatId =>
      simp only [step] at hstep
      cases hcs : getEntry sid s.conns with
      | none =>
          rw [hcs] at hstep
          simp only [Option.some.injEq, Prod.mk.injEq] at hstep
          obtain ⟨rfl, rfl⟩ := hstep
          exact h
      | some c =>
          rw [hcs] at hstep
          cases hps : getEntry sid s.players with
          | none =>
              rw [hps] at hstep
              simp only [Option.some.injEq, Prod.mk.injEq] at hstep
              obtain ⟨rfl, rfl⟩ := hstep
              exact h
          | some p =>
              rw [hps] at hstep
              simp only [Option.some.injEq, Prod.mk.injEq] at hstep
              obtain ⟨rfl, rfl⟩ := hstep
              exact inv_setPlayer h hps rfl
  | equipTool sid tool =>
      simp only [step, relayExcept] at hstep
      cases hcs : getEntry sid s.conns with
      | none =>
          rw [hcs] at hstep
          simp only [Option.some.injEq, Prod.mk.injEq] at hstep
          obtain ⟨rfl, rfl⟩ := hstep
          exact h
      | some c =>
          rw [hcs] at hstep
          simp only [Option.some.injEq, Prod.mk.injEq] at hstep
          obtain ⟨rfl, rfl⟩ := hstep
          exact h
  | unequipTool sid tool =>
      simp only [step, relayExcept] at hstep
      cases hcs : getEntry sid s.conns with
      | none =>
          rw [hcs] at hstep
          simp only [Option.some.injEq, Prod.mk.injEq] at hstep
          obtain ⟨rfl, rfl⟩ := hstep
          exact h
      | some c =>
          rw [hcs] at hstep
          simp only [Option.some.injEq, Prod.mk.injEq] at hstep
          obtain ⟨rfl, rfl⟩ := hstep
          exact h
  | dance sid =>
      simp only [step, relayExcept] at hstep
      cases hcs : getEntry sid s.conns with
      | none =>
          rw [hcs] at hstep
          simp only [Option.some.injEq, Prod.mk.injEq] at hstep
          obtain ⟨rfl, rfl⟩ := hstep
          exact h
      | some c =>
          rw [hcs] at hstep
          simp only [Option.some.injEq, Prod.mk.injEq] at hstep
          obtain ⟨rfl, rfl⟩ := hstep
          exact h
  | stopDance sid =>
      simp only [step, relayExcept] at hstep
      cases hcs : getEntry sid s.conns with
      | none =>
          rw [hcs] at hstep
          simp only [Option.some.injEq, Prod.mk.injEq] at hstep
          obtain ⟨rfl, rfl⟩ := hstep
          exact h
      | some c =>
          rw [hcs] at hstep
          simp only [Option.some.injEq, Prod.mk.injEq] at hstep
          obtain ⟨rfl, rfl⟩ := hstep
          exact h
  | launchRocket sid payload =>
      simp only [step, relayRoom] at hstep
      cases hcs : getEntry sid s.conns with
      | none =>
          rw [hcs] at hstep
          simp only [Option.some.injEq, Prod.mk.injEq] at hstep
          obtain ⟨rfl, rfl⟩ := hstep
          exact h
      | some c =>
          rw [hcs] at hstep
          simp only [Option.some.injEq, Prod.mk.injEq] at hstep
          obtain ⟨rfl, rfl⟩ := hstep
          exact h
  | explosion sid payload =>
      simp only [step, relayRoom] at hstep
      cases hcs : getEntry sid s.conns with
      | none =>
          rw [hcs] at hstep
          simp only [Option.some.injEq, Prod.mk.injEq] at hstep
          obtain ⟨rfl, rfl⟩ := hstep
          exact h
      | some c =>
          rw [hcs] at hstep
          simp only [Option.some.injEq, Prod.mk.injEq] at hstep
          obtain ⟨rfl, rfl⟩ := hstep
          exact h
  | playerHit sid killer victim =>
      simp only [step, relayRoom] at hstep
      cases hcs : getEntry sid s.conns with
      | none =>
          rw [hcs] at hstep
          simp only [Option.some.injEq, Prod.mk.injEq] at hstep
          obtain ⟨rfl, rfl⟩ := hstep
          exact h
      | some c =>
          rw [hcs] at hstep
          simp only [Option.some.injEq, Prod.mk.injEq] at hstep
          obtain ⟨rfl, rfl⟩ := hstep
          exact h
  | playerRagdoll sid payload =>
      simp only [step, relayRoom] at hstep
      cases hcs : getEntry sid s.conns with
      | none =>
          rw [hcs] at hstep
          simp only [Option.some.injEq, Prod.mk.injEq] at hstep
          obtain ⟨rfl, rfl⟩ := hstep
          exact h
      | some c =>
          rw [hcs] at hstep
          simp only [Option.some.injEq, Prod.mk.injEq] at hstep
          obtain ⟨rfl, rfl⟩ := hstep
          exact h
  | danielCommand sid now =>
      simp only [step] at hstep
      cases hcs : getEntry sid s.conns with
      | none =>
          rw [hcs] at hstep
          simp only [Option.some.injEq, Prod.mk.injEq] at hstep
          obtain ⟨rfl, rfl⟩ := hstep
          exact h
      | some c =>
          rw [hcs] at hstep
          cases hnick : c.nickname == some "daniel244"
          · simp only [hnick, Bool.false_eq_true, if_false, Option.some.injEq,
              Prod.mk.injEq] at hstep
            obtain ⟨rfl, rfl⟩ := hstep
            exact h
          · simp only [hnick, if_true] at hstep
            cases hdl : danielLimited c.lastDaniel now
            · simp only [hdl, Bool.false_eq_true, if_false, Option.some.injEq,
                Prod.mk.injEq] at hstep
              obtain ⟨rfl, rfl⟩ := hstep
              exact inv_setConn h hcs rfl
            · simp only [hdl, if_true, Option.some.injEq, Prod.mk.injEq] at hstep
              obtain ⟨rfl, rfl⟩ := hstep
              exact h
  | adminExplode sid target =>
      simp only [step] at hstep
      cases hcs : getEntry sid s.conns with
      | none =>
          rw [hcs] at hstep
          simp only [Option.some.injEq, Prod.mk.injEq] at hstep
          obtain ⟨rfl, rfl⟩ := hstep
          exact h
      | some c =>
          rw [hcs] at hstep
          cases hnick : c.nickname == some "notrealregi"
          · simp only [hnick, Bool.false_eq_true, if_false, Option.some.injEq,
              Prod.mk.injEq] at hstep
            obtain ⟨rfl, rfl⟩ := hstep
            exact h
          · simp only [hnick, if_true] at hstep
            cases htgt : s.players.any
                (fun q => q.2.room == c.roomName && q.2.nickname == some target)
            · simp only [htgt, Bool.false_eq_true, if_false, Option.some.injEq,
                Prod.mk.injEq] at hstep
              obtain ⟨rfl, rfl⟩ := hstep
              exact h
            · simp only [htgt, if_true, Option.some.injEq, Prod.mk.injEq] at hstep
              obtain ⟨rfl, rfl⟩ := hstep
              exact h
  | adminFly sid target =>
      simp only [step, Option.some.injEq, Prod.mk.injEq] at hstep
      obtain ⟨rfl, rfl⟩ := hstep
      exact h
  | disconnect sid =>
      simp only [step] at hstep
      cases hcs : getEntry sid s.conns with
      | none =>
          rw [hcs] at hstep
          simp only [Option.some.injEq, Prod.mk.injEq] at hstep
          obtain ⟨rfl, rfl⟩ := hstep
          exact h
      | some c =>
          rw [hcs] at hstep
          simp only [Option.some.injEq, Prod.mk.injEq] at hstep
          obtain ⟨rfl, rfl⟩ := hstep
          exact stInv_remove h sid

/-- Invariants hold along any run. -/
theorem stInv_runEvents {s s' : ServerState} {evs : List Event}
    (h : StInv s) (hrun : runEvents s evs = some s') : StInv s' := by
  induction evs generalizing s with
  | nil => simp only [runEvents, Option.some.injEq] at hrun; exact hrun ▸ h
  | cons e es ih =>
      simp only [runEvents] at hrun
      cases hstep : step s e with
      | none => rw [hstep] at hrun; cases hrun
      | some pr =>
          obtain ⟨s1, out1⟩ := pr
          rw [hstep] at hrun
          exact ih (stInv_step h hstep) hrun

/-- Invariants hold in every reachable state. -/
theorem stInv_reachable {s : ServerState} (h : Reachable s) : StInv s := by
  obtain ⟨evs, hrun⟩ := h
  exact stInv_runEvents inv_initState hrun

-- ## Helper lemmas for the claims

/-- A value delivered by `normalizeAngle` is a finite rational in `[-π, π]`. -/
theorem normalizeAngle_bounds {a : JSNum} {r : JSNum}
    (h : normalizeAngle a = some r) : ∃ q : ℚ, r = .num q ∧ -piQ ≤ q ∧ q ≤ piQ := by
  unfold normalizeAngle at h
  cases ha : numOr0 a with
  | num q =>
      rw [ha] at h
      simp only [Option.some.injEq] at h
      exact ⟨normQ q, h.symm, (normQ_mem q).1, (normQ_mem q).2⟩
  | posInf => rw [ha] at h; cases h
  | negInf => rw [ha] at h; cases h
  | nan => rw [ha] at h; cases h

/-- Range check for a stored coordinate. -/
def inRangeB (v : JSNum) (lo hi : ℚ) : Bool :=
  match v with
  | .num q => decide (lo ≤ q ∧ q ≤ hi)
  | _ => false

theorem clamp_inRangeB (v : Option JSNum) {lo hi : ℚ} (hlh : lo ≤ hi) :
    inRangeB (clamp v lo hi) lo hi = true := by
  obtain ⟨q, hq, h1, h2⟩ := clamp_mem v hlh
  rw [hq]
  simp [inRangeB, h1, h2]

-- ## Concrete states used by witnesses and counterexamples

/-- A state with an unregistered socket 1 and a registered socket 2
("alice"), both in room "default". -/
def sDup : ServerState :=
  { conns := [(1, ⟨"default", none, none, none⟩), (2, ⟨"default", some "alice", none, none⟩)],
    players := [(2, newPlayer 2 "alice" "default")],
    activeNicknames := [(2, "alice")] }

-- ## C1

/-- C1: a `register` whose nickname is already an active value in the
nickname registry (held by any socket, server-wide) makes the server emit
`nicknameError` to the requester and disconnect it, with the state — the
player store and nickname registry included — completely unchanged, so no
PlayerState is created. -/
theorem register_duplicate_rejected {s : ServerState} {sid : ℕ} {n : String} {c : ConnState}
    (hc : getEntry sid s.conns = some c)
    (hdup : ∃ e ∈ s.activeNicknames, e.2 = n) :
    step s (.register sid n) =
      some (s, [.toSocket sid (.nicknameError nickErrText), .disconnectSock sid]) := by
  have hb : nickInUse s.activeNicknames n = true := by
    rw [nickInUse, List.any_eq_true]
    obtain ⟨e, he, hv⟩ := hdup
    exact ⟨e, he, by simp [hv]⟩
  simp [step, hc, hb]

/-- C1 witness: socket 1 registering "alice" while socket 2 holds it. -/
theorem register_duplicate_rejected_witness :
    step sDup (.register 1 "alice") =
      some (sDup, [.toSocket 1 (.nicknameError nickErrText), .disconnectSock 1]) :=
  @register_duplicate_rejected sDup 1 "alice" ⟨"default", none, none, none⟩
    (by decide) ⟨(2, "alice"), by decide, rfl⟩

-- ## C10

/-- C10: a socket that is already registered under nickname `n` and sends
`register` for the same `n` again matches its own registry entry, so it
receives `nicknameError` and is disconnected; the state is unchanged. -/
theorem register_self_duplicate_rejected {s : ServerState} {sid : ℕ} {n : String}
    {c : ConnState}
    (hc : getEntry sid s.conns = some c)
    (hself : getEntry sid s.activeNicknames = some n) :
    step s (.register sid n) =
      some (s, [.toSocket sid (.nicknameError nickErrText), .disconnectSock sid]) := by
  have hb : nickInUse s.activeNicknames n = true := by
    rw [nickInUse, List.any_eq_true]
    exact ⟨(sid, n), getEntry_mem hself, by simp⟩
  simp [step, hc, hb]

/-- C10 witness: socket 2, registered as "alice", re-registers "alice". -/
theorem register_self_duplicate_rejected_witness :
    step sDup (.register 2 "alice") =
      some (sDup, [.toSocket 2 (.nicknameError nickErrText), .disconnectSock 2]) :=
  @register_self_duplicate_rejected sDup 2 "alice" ⟨"default", some "alice", none, none⟩
    (by decide) (by decide)

-- ## C8

/-- A state with a single admitted player, used to exercise `playerMove`. -/
def sOnePlayer : ServerState :=
  { conns := [(1, ⟨"default", some "alice", none, none⟩)],
    players := [(1, newPlayer 1 "alice" "default")],
    activeNicknames := [(1, "alice")] }

/-- A `playerMove` payload whose rotation is `Infinity`. -/
def moveInfRot : MoveData :=
  { x := none, y := none, z := none, rotation := some .posInf,
    isMoving := false, isInAir := false }

/-- C8 (refuting the claim, confirming the spec's intent): on rotation
`Infinity` the first `while` loop of `normalizeAngle` never exits — however
many iterations it is given the guard stays true, because
`Infinity - 2π = Infinity` — so handling `playerMove` with rotation
`Infinity` from an admitted player diverges (modelled as `none`): the
handler does **not** terminate for every input. -/
theorem playerMove_infinite_rotation_hangs :
    (∀ n : ℕ, whileGtPi n .posInf = none) ∧
      normalizeAngle .posInf = none ∧
      step sOnePlayer (.playerMove 1 5 moveInfRot) = none :=
  ⟨whileGtPi_posInf, rfl, by decide⟩

-- ## C5

/-- A state with a connected but unregistered socket 1 (no PlayerState). -/
def sNoPlayer : ServerState :=
  { conns := [(1, ⟨"default", none, none, none⟩)],
    players := [],
    activeNicknames := [] }

/-- C5 counterexample: the claim says an event from a connection with no
PlayerState emits nothing to anyone, but a `chat` from the unregistered
socket 1 is still broadcast to its room (with an undefined nickname). -/
theorem chat_without_player_still_emits :
    step sNoPlayer (.chat 1 "hi") =
        some (sNoPlayer, [.toRoom "default" (.chatMsg 1 none "hi")]) ∧
      ([Out.toRoom "default" (.chatMsg 1 none "hi")] : List Out) ≠ [] := by
  exact ⟨by decide, by decide⟩

/-- C5 amended: an event from a connection with no PlayerState mutates no
server-side state and throws no exception, but the handlers are not silent:
`chat`, `equipHat`, `dance`, `stopDance`, `equipTool` and `explosion` still
emit their events (`equipHat` merely skips the `hatId` write). -/
theorem no_player_events_no_state_change {s : ServerState} {sid : ℕ} {c : ConnState}
    (hc : getEntry sid s.conns = some c)
    (hp : getEntry sid s.players = none) :
    (∀ msg, step s (.chat sid msg) =
        some (s, [.toRoom c.roomName (.chatMsg sid c.nickname msg)])) ∧
      (∀ hatId, step s (.equipHat sid hatId) =
        some (s, [.toRoom c.roomName (.playerHatChanged sid hatId)])) ∧
      (step s (.dance sid) = some (s, [.toRoomExcept c.roomName sid (.danceMsg sid)])) ∧
      (step s (.stopDance sid) =
        some (s, [.toRoomExcept c.roomName sid (.stopDanceMsg sid)])) ∧
      (∀ tool, step s (.equipTool sid tool) =
        some (s, [.toRoomExcept c.roomName sid (.remoteEquip sid tool)])) ∧
      (∀ payload, step s (.explosion sid payload) =
        some (s, [.toRoom c.roomName (.explosionMsg payload)])) := by
  refine ⟨fun msg => ?_, fun hatId => ?_, ?_, ?_, fun tool => ?_, fun payload => ?_⟩ <;>
    simp [step, relayExcept, relayRoom, hc, hp]

/-- C5 amended witness: the unregistered socket 1 exercising each handler. -/
theorem no_player_events_no_state_change_witness :
    (step sNoPlayer (.chat 1 "yo") =
        some (sNoPlayer, [.toRoom "default" (.chatMsg 1 none "yo")])) ∧
      (step sNoPlayer (.equipHat 1 (some 7)) =
        some (sNoPlayer, [.toRoom "default" (.playerHatChanged 1 (some 7))])) ∧
      (step sNoPlayer (.dance 1) =
        some (sNoPlayer, [.toRoomExcept "default" 1 (.danceMsg 1)])) := by
  have h := @no_player_events_no_state_change sNoPlayer 1 ⟨"default", none, none, none⟩
    (by decide) (by decide)
  exact ⟨h.1 "yo", h.2.1 (some 7), h.2.2.1⟩

-- ## C6

/-- A state with the privileged admin socket 1 ("notrealregi") and a
registered player "bob" (socket 2) in the same room "default". -/
def sAdmin : ServerState :=
  { conns := [(1, ⟨"default", some "notrealregi", none, none⟩),
              (2, ⟨"default", some "bob", none, none⟩)],
    players := [(1, newPlayer 1 "notrealregi" "default"),
                (2, newPlayer 2 "bob" "default")],
    activeNicknames := [(1, "notrealregi"), (2, "bob")] }

/-- C6 counterexample: the claim covers `adminFly{target}` symmetrically
with `adminExplode{target}`, but the server registers no `adminFly` handler
at all: even with the privileged sender and the target present in-room,
nothing is emitted. -/
theorem adminFly_never_broadcasts :
    step sAdmin (.adminFly 1 "bob") = some (sAdmin, []) ∧
      (getEntry 1 sAdmin.conns).map ConnState.nickname = some (some "notrealregi") ∧
      (∃ e ∈ sAdmin.players, e.2.room = "default" ∧ e.2.nickname = some "bob") := by
  refine ⟨by decide, by decide, ⟨(2, newPlayer 2 "bob" "default"), by decide, by decide⟩⟩

/-- C6 amended: `adminExplode{target}` is broadcast to the sender's room
(sender included) iff the sender's nickname is the second hardcoded
privileged name "notrealregi" and some player in the sender's room has
nickname `target`; in every other case nothing is emitted; the state never
changes.  `adminFly` has no handler and never emits anything. -/
theorem adminExplode_gating {s : ServerState} {sid : ℕ} {c : ConnState} {target : String}
    (hc : getEntry sid s.conns = some c) :
    (c.nickname = some "notrealregi" →
        (∃ e ∈ s.players, e.2.room = c.roomName ∧ e.2.nickname = some target) →
        step s (.adminExplode sid target) =
          some (s, [.toRoom c.roomName (.adminExplodeMsg target)])) ∧
      (¬ (c.nickname = some "notrealregi" ∧
            ∃ e ∈ s.players, e.2.room = c.roomName ∧ e.2.nickname = some target) →
        step s (.adminExplode sid target) = some (s, [])) ∧
      (∀ tgt, step s (.adminFly sid tgt) = some (s, [])) := by
  refine ⟨?_, ?_, fun tgt => by simp [step]⟩
  · intro hnick htgt
    have hb : s.players.any
        (fun q => q.2.room == c.roomName && q.2.nickname == some target) = true := by
      rw [List.any_eq_true]
      obtain ⟨e, he, hr, hn⟩ := htgt
      exact ⟨e, he, by simp [hr, hn]⟩
    simp [step, hc, hnick, hb]
  · intro hneg
    by_cases hnick : c.nickname = some "notrealregi"
    · have htgt : ¬ ∃ e ∈ s.players, e.2.room = c.roomName ∧ e.2.nickname = some target :=
        fun hh => hneg ⟨hnick, hh⟩
      have hb : s.players.any
          (fun q => q.2.room == c.roomName && q.2.nickname == some target) = false := by
        rw [Bool.eq_false_iff]
        intro hany
        rw [List.any_eq_true] at hany
        obtain ⟨e, he, hcond⟩ := hany
        rw [Bool.and_eq_true, beq_iff_eq, beq_iff_eq] at hcond
        exact htgt ⟨e, he, hcond.1, hcond.2⟩
      simp [step, hc, hnick, hb]
    · have hb : (c.nickname == some "notrealregi") = false := by
        rw [Bool.eq_false_iff]
        intro hbe
        exact hnick (eq_of_beq hbe)
      simp [step, hc, hb]

/-- C6 amended witness: with the privileged sender and "bob" in-room,
`adminExplode` broadcasts; with a different target, it emits nothing. -/
theorem adminExplode_gating_witness :
    step sAdmin (.adminExplode 1 "bob") =
        some (sAdmin, [.toRoom "default" (.adminExplodeMsg "bob")]) ∧
      step sAdmin (.adminExplode 1 "carol") = some (sAdmin, []) := by
  have h1 := @adminExplode_gating sAdmin 1 ⟨"default", some "notrealregi", none, none⟩ "bob"
    (by decide)
  have h2 := @adminExplode_gating sAdmin 1 ⟨"default", some "notrealregi", none, none⟩ "carol"
    (by decide)
  refine ⟨h1.1 rfl ⟨(2, newPlayer 2 "bob" "default"), by decide, by decide⟩, h2.2.1 ?_⟩
  rintro ⟨-, e, he, -, hn⟩
  have : e = (1, newPlayer 1 "notrealregi" "default") ∨
      e = (2, newPlayer 2 "bob" "default") := by
    simpa [sAdmin] using he
  rcases this with rfl | rfl <;> simp [newPlayer] at hn

-- ## C2

/-- A `playerMove` payload whose rotation is exactly `-Math.PI`. -/
def rotNegPiData : MoveData :=
  { x := none, y := none, z := none, rotation := some (.num (-piQ)),
    isMoving := false, isInAir := false }

/-- C2 counterexample: an accepted `playerMove` with rotation exactly
`-Math.PI` stores rotation `-π` (both loop guards are false), which violates
the claimed strict lower bound `-π < rotation`. -/
theorem playerMove_rotation_neg_pi_stored :
    ((step sOnePlayer (.playerMove 1 5 rotNegPiData)).bind
        (fun r => getEntry 1 r.1.players)).map (fun q => q.rotation) =
        some (.num (-piQ)) ∧
      ¬ ((-piQ : ℚ) < -piQ) := by
  have hnorm : normQ (-piQ) = -piQ :=
    normQ_of_mem (le_refl _) (by linarith [piQ_pos])
  refine ⟨?_, lt_irrefl _⟩
  simp [sOnePlayer, rotNegPiData, step, getEntry, rateLimited, normalizeAngle,
    numOr0, setEntry, newPlayer, hnorm]

/-- C2 amended: an accepted `playerMove` (admitted sender, not rate-limited)
that completes stores a position with `-250 ≤ x,z ≤ 250` and `0 ≤ y ≤ 500`,
and a rotation in the **closed** interval `[-π, π]`, for every combination
of out-of-range, missing or non-numeric fields. -/
theorem playerMove_bounds {s : ServerState} {sid : ℕ} {now : ℚ} {data : MoveData}
    {c : ConnState} {p p' : PlayerState} {s' : ServerState} {out : List Out}
    (hc : getEntry sid s.conns = some c)
    (hp : getEntry sid s.players = some p)
    (hrl : rateLimited c.lastMoveAt now = false)
    (hstep : step s (.playerMove sid now data) = some (s', out))
    (hp' : getEntry sid s'.players = some p') :
    inRangeB p'.x (-250) 250 = true ∧ inRangeB p'.z (-250) 250 = true ∧
      inRangeB p'.y 0 500 = true ∧ inRangeB p'.rotation (-piQ) piQ = true := by
  simp only [step, hc, hrl, Bool.false_eq_true, if_false, hp] at hstep
  cases hna : normalizeAngle (data.rotation.getD (.num 0)) with
  | none => rw [hna] at hstep; cases hstep
  | some rot =>
      rw [hna] at hstep
      simp only [Option.some.injEq, Prod.mk.injEq] at hstep
      obtain ⟨rfl, rfl⟩ := hstep
      rw [show ({ s with
            conns := setEntry sid { c with lastMoveAt := some now } s.conns,
            players := setEntry sid { p with
              x := clamp data.x (-worldXZ) worldXZ,
              y := clamp data.y worldYMin worldYMax,
              z := clamp data.z (-worldXZ) worldXZ,
              rotation := rot,
              isMoving := data.isMoving,
              isInAir := some data.isInAir,
              nickname := c.nickname } s.players } : ServerState).players =
          setEntry sid { p with
              x := clamp data.x (-worldXZ) worldXZ,
              y := clamp data.y worldYMin worldYMax,
              z := clamp data.z (-worldXZ) worldXZ,
              rotation := rot,
              isMoving := data.isMoving,
              isInAir := some data.isInAir,
              nickname := c.nickname } s.players from rfl,
        getEntry_setEntry_self] at hp'
      injection hp' with hp'
      subst hp'
      refine ⟨?_, ?_, ?_, ?_⟩
      · exact clamp_inRangeB data.x (by norm_num [worldXZ])
      · exact clamp_inRangeB data.z (by norm_num [worldXZ])
      · exact clamp_inRangeB data.y (by norm_num [worldYMin, worldYMax])
      · obtain ⟨q, hq, h1, h2⟩ := normalizeAngle_bounds hna
        subst hq
        simp [inRangeB, h1, h2]

/-- The payload of the spec's round-trip example:
`{x: 999, y: -5, z: 0, rotation: 10, isMoving: true}`. -/
def overshootData : MoveData :=
  { x := some (.num 999), y := some (.num (-5)), z := some (.num 0),
    rotation := some (.num 10), isMoving := true, isInAir := false }

/-- The stored player after `overshootData` is applied to the fresh
"alice": x clamped to 250, y clamped to 0, rotation wrapped twice down. -/
def overshootPlayer : PlayerState :=
  { id := 1, nickname := some "alice", room := "default",
    x := .num 250, y := .num 0, z := .num 0, rotation := .num (10 - 4 * piQ),
    isMoving := true, isInAir := some false, colors := defaultColors, hatId := none }

/-- The state after `overshootData` is accepted from socket 1 at time 50. -/
def sOnePlayerMoved : ServerState :=
  { conns := [(1, ⟨"default", some "alice", some 50, none⟩)],
    players := [(1, overshootPlayer)],
    activeNicknames := [(1, "alice")] }

/-- C2 amended witness: the out-of-range move is accepted and the stored
coordinates and rotation are inside the claimed ranges. -/
theorem playerMove_bounds_witness :
    step sOnePlayer (.playerMove 1 50 overshootData) = some (sOnePlayerMoved, []) ∧
      (inRangeB overshootPlayer.x (-250) 250 = true ∧
        inRangeB overshootPlayer.z (-250) 250 = true ∧
        inRangeB overshootPlayer.y 0 500 = true ∧
        inRangeB overshootPlayer.rotation (-piQ) piQ = true) := by
  have hnorm : normQ 10 = 10 - 4 * piQ := by
    have g1 : piQ < 10 := by norm_num [piQ]
    have g2 : piQ < 10 - piQ * 2 := by norm_num [piQ]
    have g3 : ¬ piQ < 10 - piQ * 2 - piQ * 2 := by norm_num [piQ]
    have g4 : ¬ (10 - piQ * 2 - piQ * 2 < -piQ) := by norm_num [piQ]
    rw [normQ, loopDown_of_gt g1, loopDown_of_gt g2, loopDown_of_not_gt g3,
      loopUp_of_not_lt g4]
    ring
  have hstep : step sOnePlayer (.playerMove 1 50 overshootData) =
      some (sOnePlayerMoved, []) := by
    simp [sOnePlayer, sOnePlayerMoved, overshootData, overshootPlayer, step, getEntry,
      rateLimited, normalizeAngle, numOr0, setEntry, newPlayer, hnorm, clamp, toNumOr0,
      jsMin, jsMax, worldXZ, worldYMin, worldYMax]
    norm_num
  exact ⟨hstep, @playerMove_bounds sOnePlayer 1 50 overshootData
    ⟨"default", some "alice", none, none⟩ (newPlayer 1 "alice" "default")
    overshootPlayer sOnePlayerMoved []
    rfl rfl rfl hstep rfl⟩

-- ## C7

/-- The socket a client event arrives on. -/
def eventSid : Event → ℕ
  | .connect sid _ => sid
  | .register sid _ => sid
  | .playerMove sid _ _ => sid
  | .chat sid _ => sid
  | .playerCustomize sid _ => sid
  | .equipHat sid _ => sid
  | .equipTool sid _ => sid
  | .unequipTool sid _ => sid
  | .dance sid => sid
  | .stopDance sid => sid
  | .launchRocket sid _ => sid
  | .explosion sid _ => sid
  | .playerHit sid _ _ => sid
  | .playerRagdoll sid _ => sid
  | .danielCommand sid _ => sid
  | .adminExplode sid _ => sid
  | .adminFly sid _ => sid
  | .disconnect sid => sid

/-- Handling any event only ever writes or deletes the player entry of the
socket the event arrived on. -/
theorem step_players_shape {s : ServerState} {e : Event} {s' : ServerState} {out : List Out}
    (hstep : step s e = some (s', out)) :
    s'.players = s.players ∨
      (∃ p', s'.players = setEntry (eventSid e) p' s.players) ∨
      s'.players = removeEntry (eventSid e) s.players := by
  cases e with
  | connect sid authRoom =>
      simp only [step] at hstep
      cases hcs : getEntry sid s.conns <;>
        · rw [hcs] at hstep
          simp only [Option.some.injEq, Prod.mk.injEq] at hstep
          obtain ⟨rfl, rfl⟩ := hstep
          exact Or.inl rfl
  | register sid nickname =>
      simp only [step] at hstep
      cases hcs : getEntry sid s.conns with
      | none =>
          rw [hcs] at hstep
          simp only [Option.some.injEq, Prod.mk.injEq] at hstep
          obtain ⟨rfl, rfl⟩ := hstep
          exact Or.inl rfl
      | some c =>
          rw [hcs] at hstep
          cases hdup : nickInUse s.activeNicknames nickname
          · simp only [hdup, Bool.false_eq_true, if_false, Option.some.injEq,
              Prod.mk.injEq] at hstep
            obtain ⟨rfl, rfl⟩ := hstep
            exact Or.inr (Or.inl ⟨newPlayer sid nickname c.roomName, rfl⟩)
          · simp only [hdup, if_true, Option.some.injEq, Prod.mk.injEq] at hstep
            obtain ⟨rfl, rfl⟩ := hstep
            exact Or.inl rfl
  | playerMove sid now data =>
      simp only [step] at hstep
      cases hcs : getEntry sid s.conns with
      | none =>
          rw [hcs] at hstep
          simp only [Option.some.injEq, Prod.mk.injEq] at hstep
          obtain ⟨rfl, rfl⟩ := hstep
          exact Or.inl rfl
      | some c =>
          rw [hcs] at hstep
          cases hrl : rateLimited c.lastMoveAt now
          · simp only [hrl, Bool.false_eq_true, if_false] at hstep
            cases hps : getEntry sid s.players with
            | none =>
                rw [hps] at hstep
                simp only [Option.some.injEq, Prod.mk.injEq] at hstep
                obtain ⟨rfl, rfl⟩ := hstep
                exact Or.inl rfl
            | some p =>
                rw [hps] at hstep
                cases hna : normalizeAngle (data.rotation.getD (.num 0)) with
                | none => rw [hna] at hstep; cases hstep
                | some rot =>
                    rw [hna] at hstep
                    simp only [Option.some.injEq, Prod.mk.injEq] at hstep
                    obtain ⟨rfl, rfl⟩ := hstep
                    exact Or.inr (Or.inl ⟨_, rfl⟩)
          · simp only [hrl, if_true, Option.some.injEq, Prod.mk.injEq] at hstep
            obtain ⟨rfl, rfl⟩ := hstep
            exact Or.inl rfl
  | chat sid msg =>
      simp only [step] at hstep
      cases hcs : getEntry sid s.conns <;>
        · rw [hcs] at hstep
          simp only [Option.some.injEq, Prod.mk.injEq] at hstep
          obtain ⟨rfl, rfl⟩ := hstep
          exact Or.inl rfl
  | playerCustomize sid colors =>
      simp only [step] at hstep
      cases hcs : getEntry sid s.conns with
      | none =>
          rw [hcs] at hstep
          simp only [Option.some.injEq, Prod.mk.injEq] at hstep
          obtain ⟨rfl, rfl⟩ := hstep
          exact Or.inl rfl
      | some c =>
          rw [hcs] at hstep
          cases hps : getEntry sid s.players with
          | none =>
              rw [hps] at hstep
              simp only [Option.some.injEq, Prod.mk.injEq] at hstep
              obtain ⟨rfl, rfl⟩ := hstep
              exact Or.inl rfl
          | some p =>
              rw [hps] at hstep
              simp only [Option.some.injEq, Prod.mk.injEq] at hstep
              obtain ⟨rfl, rfl⟩ := hstep
              exact Or.inr (Or.inl ⟨_, rfl⟩)
  | equipHat sid hatId =>
      simp only [step] at hstep
      cases hcs : getEntry sid s.conns with
      | none =>
          rw [hcs] at hstep
          simp only [Option.some.injEq, Prod.mk.injEq] at hstep
          obtain ⟨rfl, rfl⟩ := hstep
          exact Or.inl rfl
      | some c =>
          rw [hcs] at hstep
          cases hps : getEntry sid s.players with
          | none =>
              rw [hps] at hstep
              simp only [Option.some.injEq, Prod.mk.injEq] at hstep
              obtain ⟨rfl, rfl⟩ := hstep
              exact Or.inl rfl
          | some p =>
              rw [hps] at hstep
              simp only [Option.some.injEq, Prod.mk.injEq] at hstep
              obtain ⟨rfl, rfl⟩ := hstep
              exact Or.inr (Or.inl ⟨_, rfl⟩)
  | equipTool sid tool =>
      simp only [step, relayExcept] at hstep
      cases hcs : getEntry sid s.conns <;>
        · rw [hcs] at hstep
          simp only [Option.some.injEq, Prod.mk.injEq] at hstep
          obtain ⟨rfl, rfl⟩ := hstep
          exact Or.inl rfl
  | unequipTool sid tool =>
      simp only [step, relayExcept] at hstep
      cases hcs : getEntry sid s.conns <;>
        · rw [hcs] at hstep
          simp only [Option.some.injEq, Prod.mk.injEq] at hstep
          obtain ⟨rfl, rfl⟩ := hstep
          exact Or.inl rfl
  | dance sid =>
      simp only [step, relayExcept] at hstep
      cases hcs : getEntry sid s.conns <;>
        · rw [hcs] at hstep
          simp only [Option.some.injEq, Prod.mk.injEq] at hstep
          obtain ⟨rfl, rfl⟩ := hstep
          exact Or.inl rfl
  | stopDance sid =>
      simp only [step, relayExcept] at hstep
      cases hcs : getEntry sid s.conns <;>
        · rw [hcs] at hstep
          simp only [Option.some.injEq, Prod.mk.injEq] at hstep
          obtain ⟨rfl, rfl⟩ := hstep
          exact Or.inl rfl
  | launchRocket sid payload =>
      simp only [step, relayRoom] at hstep
      cases hcs : getEntry sid s.conns <;>
        · rw [hcs] at hstep
          simp only [Option.some.injEq, Prod.mk.injEq] at hstep
          obtain ⟨rfl, rfl⟩ := hstep
          exact Or.inl rfl
  | explosion sid payload =>
      simp only [step, relayRoom] at hstep
      cases hcs : getEntry sid s.conns <;>
        · rw [hcs] at hstep
          simp only [Option.some.injEq, Prod.mk.injEq] at hstep
          obtain ⟨rfl, rfl⟩ := hstep
          exact Or.inl rfl
  | playerHit sid killer victim =>
      simp only [step, relayRoom] at hstep
      cases hcs : getEntry sid s.conns <;>
        · rw [hcs] at hstep
          simp only [Option.some.injEq, Prod.mk.injEq] at hstep
          obtain ⟨rfl, rfl⟩ := hstep
          exact Or.inl rfl
  | playerRagdoll sid payload =>
      simp only [step, relayRoom] at hstep
      cases hcs : getEntry sid s.conns <;>
        · rw [hcs] at hstep
          simp only [Option.some.injEq, Prod.mk.injEq] at hstep
          obtain ⟨rfl, rfl⟩ := hstep
          exact Or.inl rfl
  | danielCommand sid now =>
      simp only [step] at hstep
      cases hcs : getEntry sid s.conns with
      | none =>
          rw [hcs] at hstep
          simp only [Option.some.injEq, Prod.mk.injEq] at hstep
          obtain ⟨rfl, rfl⟩ := hstep
          exact Or.inl rfl
      | some c =>
          rw [hcs] at hstep
          cases hnick : c.nickname == some "daniel244"
          · simp only [hnick, Bool.false_eq_true, if_false, Option.some.injEq,
              Prod.mk.injEq] at hstep
            obtain ⟨rfl, rfl⟩ := hstep
            exact Or.inl rfl
          · simp only [hnick, if_true] at hstep
            cases hdl : danielLimited c.lastDaniel now
            · simp only [hdl, Bool.false_eq_true, if_false, Option.some.injEq,
                Prod.mk.injEq] at hstep
              obtain ⟨rfl, rfl⟩ := hstep
              exact Or.inl rfl
            · simp only [hdl, if_true, Option.some.injEq, Prod.mk.injEq] at hstep
              obtain ⟨rfl, rfl⟩ := hstep
              exact Or.inl rfl
  | adminExplode sid target =>
      simp only [step] at hstep
      cases hcs : getEntry sid s.conns with
      | none =>
          rw [hcs] at hstep
          simp only [Option.some.injEq, Prod.mk.injEq] at hstep
          obtain ⟨rfl, rfl⟩ := hstep
          exact Or.inl rfl
      | some c =>
          rw [hcs] at hstep
          cases hnick : c.nickname == some "notrealregi"
          · simp only [hnick, Bool.false_eq_true, if_false, Option.some.injEq,
              Prod.mk.injEq] at hstep
            obtain ⟨rfl, rfl⟩ := hstep
            exact Or.inl rfl
          · simp only [hnick, if_true] at hstep
            cases htgt : s.players.any
                (fun q => q.2.room == c.roomName && q.2.nickname == some target) <;>
              · simp only [htgt, Bool.false_eq_true, if_false, if_true,
                  Option.some.injEq, Prod.mk.injEq] at hstep
                obtain ⟨rfl, rfl⟩ := hstep
                exact Or.inl rfl
  | adminFly sid target =>
      simp only [step, Option.some.injEq, Prod.mk.injEq] at hstep
      obtain ⟨rfl, rfl⟩ := hstep
      exact Or.inl rfl
  | disconnect sid =>
      simp only [step] at hstep
      cases hcs : getEntry sid s.conns with
      | none =>
          rw [hcs] at hstep
          simp only [Option.some.injEq, Prod.mk.injEq] at hstep
          obtain ⟨rfl, rfl⟩ := hstep
          exact Or.inl rfl
      | some c =>
          rw [hcs] at hstep
          simp only [Option.some.injEq, Prod.mk.injEq] at hstep
          obtain ⟨rfl, rfl⟩ := hstep
          exact Or.inr (Or.inr rfl)

/-- C7 amended (room-aware server, src/unnamed/part_001): handling a
message from connection A never changes the stored PlayerState of any other
connection B ≠ A — broadcast-only events (chat, admin commands, tools,
explosions) alter no player record at all. -/
theorem no_cross_player_mutation {s : ServerState} {e : Event} {s' : ServerState}
    {out : List Out} (hstep : step s e = some (s', out)) :
    ∀ b, b ≠ eventSid e → getEntry b s'.players = getEntry b s.players := by
  intro b hb
  rcases step_players_shape hstep with hsh | ⟨p', hsh⟩ | hsh
  · rw [hsh]
  · rw [hsh, getEntry_setEntry_ne hb]
  · rw [hsh, getEntry_removeEntry_ne hb]

/-- C7 amended witness: socket 1 sending `chat` in `sAdmin` leaves socket
2's player record untouched. -/
theorem no_cross_player_mutation_witness :
    getEntry 2 sAdmin.players = some (newPlayer 2 "bob" "default") ∧
      ((2 : ℕ) ≠ eventSid (.chat 1 "hey")) := by
  have h := @no_cross_player_mutation sAdmin (.chat 1 "hey") sAdmin
    [.toRoom "default" (.chatMsg 1 (some "notrealregi") "hey")] (by decide) 2 (by decide)
  exact ⟨by rw [h]; rfl, by decide⟩

/-- The players map of the global-broadcast variant with two fresh players. -/
def gPlayers2 : List (ℕ × GPlayer) := [(1, newGPlayer 1), (2, newGPlayer 2)]

/-- C7 counterexample (global variant, src/server.js): the `damage` handler
applied to a message from socket 1 naming `targetId` 2 rewrites socket 2's
player record (its `health` becomes `NaN` and `dead` becomes `false`), so a
message from A does mutate the PlayerState of B ≠ A. -/
theorem damage_mutates_target :
    getEntry 2 (damageHandler gPlayers2 ⟨2, some (.num 5)⟩).1 =
        some { newGPlayer 2 with health := some .nan, dead := some false } ∧
      getEntry 2 (damageHandler gPlayers2 ⟨2, some (.num 5)⟩).1 ≠
        getEntry 2 gPlayers2 := by
  exact ⟨by decide, by decide⟩

-- ## C3

/-- Lookup of a room's slice inside the `byRoom` partition. -/
def roomLookup (k : String) : List (String × List (ℕ × PlayerState)) → Option (List (ℕ × PlayerState))
  | [] => none
  | (r, l) :: rest => if r = k then some l else roomLookup k rest

theorem roomLookup_insert_self (k : String) (e : ℕ × PlayerState)
    (acc : List (String × List (ℕ × PlayerState))) :
    roomLookup k (insertByRoom k e acc) = some ((roomLookup k acc).getD [] ++ [e]) := by
  induction acc with
  | nil => simp [insertByRoom, roomLookup]
  | cons hd rest ih =>
      obtain ⟨r', l⟩ := hd
      by_cases hrk : r' = k
      · subst hrk
        simp [insertByRoom, roomLookup]
      · simp [insertByRoom, roomLookup, hrk, ih]

theorem roomLookup_insert_ne {k k' : String} (hne : k' ≠ k) (e : ℕ × PlayerState)
    (acc : List (String × List (ℕ × PlayerState))) :
    roomLookup k' (insertByRoom k e acc) = roomLookup k' acc := by
  induction acc with
  | nil => simp [insertByRoom, roomLookup, hne, Ne.symm hne]
  | cons hd rest ih =>
      obtain ⟨r', l⟩ := hd
      by_cases hrk : r' = k
      · subst hrk
        simp [insertByRoom, roomLookup, hne, Ne.symm hne]
      · by_cases hrk' : r' = k'
        · simp [insertByRoom, roomLookup, hrk, hrk', hne]
        · simp [insertByRoom, roomLookup, hrk, hrk', ih]

theorem roomLookup_mem {k : String} {l : List (ℕ × PlayerState)}
    {acc : List (String × List (ℕ × PlayerState))}
    (h : roomLookup k acc = some l) : (k, l) ∈ acc := by
  induction acc with
  | nil => cases h
  | cons hd rest ih =>
      obtain ⟨r', l'⟩ := hd
      by_cases hrk : r' = k
      · subst hrk
        rw [roomLookup, if_pos rfl] at h
        injection h with h
        subst h
        exact List.mem_cons_self _ _
      · rw [roomLookup, if_neg hrk] at h
        exact List.mem_cons_of_mem _ (ih h)

theorem roomLookup_foldl_getD (ps : List (ℕ × PlayerState))
    (acc : List (String × List (ℕ × PlayerState))) (k : String) :
    (roomLookup k (ps.foldl (fun a q => insertByRoom (roomKey q.2) q a) acc)).getD [] =
      (roomLookup k acc).getD [] ++ ps.filter (fun q => roomKey q.2 == k) := by
  induction ps generalizing acc with
  | nil => simp
  | cons q ps ih =>
      by_cases hk : roomKey q.2 = k
      · rw [List.foldl_cons, ih, hk, roomLookup_insert_self]
        simp [List.filter_cons, hk]
      · rw [List.foldl_cons, ih, roomLookup_insert_ne (fun hh => hk hh.symm)]
        simp [List.filter_cons, hk]

theorem roomLookup_foldl_none (ps : List (ℕ × PlayerState))
    (acc : List (String × List (ℕ × PlayerState))) (k : String) :
    roomLookup k (ps.foldl (fun a q => insertByRoom (roomKey q.2) q a) acc) = none ↔
      (roomLookup k acc = none ∧ ps.filter (fun q => roomKey q.2 == k) = []) := by
  induction ps generalizing acc with
  | nil => simp
  | cons q ps ih =>
      by_cases hk : roomKey q.2 = k
      · rw [List.foldl_cons, ih]
        subst hk
        rw [roomLookup_insert_self]
        simp [List.filter_cons]
      · rw [List.foldl_cons, ih, roomLookup_insert_ne (fun hh => hk hh.symm)]
        simp [List.filter_cons, hk]

theorem insertByRoom_keys (k : String) (e : ℕ × PlayerState)
    (acc : List (String × List (ℕ × PlayerState))) :
    (insertByRoom k e acc).map Prod.fst =
      if k ∈ acc.map Prod.fst then acc.map Prod.fst else acc.map Prod.fst ++ [k] := by
  induction acc with
  | nil => simp [insertByRoom]
  | cons hd rest ih =>
      obtain ⟨r', l⟩ := hd
      by_cases hrk : r' = k
      · subst hrk
        simp [insertByRoom]
      · simp only [insertByRoom, if_neg hrk, List.map_cons, ih, List.mem_cons]
        by_cases hmem : k ∈ rest.map Prod.fst
        · simp [hmem, hrk, Ne.symm hrk]
        · simp [hmem, hrk, Ne.symm hrk]

theorem foldl_keys_nodup (ps : List (ℕ × PlayerState)) :
    ∀ acc : List (String × List (ℕ × PlayerState)), (acc.map Prod.fst).Nodup →
      (((ps.foldl (fun a q => insertByRoom (roomKey q.2) q a) acc)).map Prod.fst).Nodup := by
  induction ps with
  | nil => intro acc h; simpa using h
  | cons q ps ih =>
      intro acc h
      rw [List.foldl_cons]
      apply ih
      rw [insertByRoom_keys]
      by_cases hmem : roomKey q.2 ∈ acc.map Prod.fst
      · simpa [hmem] using h
      · rw [if_neg hmem]
        simp only [List.nodup_append, List.nodup_cons, List.nodup_nil]
        refine ⟨h, by simp, ?_⟩
        intro a ha
        simp only [List.mem_singleton]
        intro hak
        exact hmem (hak ▸ ha)

theorem byRoom_keys_nodup (ps : List (ℕ × PlayerState)) :
    ((byRoom ps).map Prod.fst).Nodup :=
  foldl_keys_nodup ps [] (by simp)

theorem roomLookup_of_mem_nodup {acc : List (String × List (ℕ × PlayerState))}
    (hnd : (acc.map Prod.fst).Nodup) {k : String} {l : List (ℕ × PlayerState)}
    (h : (k, l) ∈ acc) : roomLookup k acc = some l := by
  induction acc with
  | nil => cases h
  | cons hd rest ih =>
      obtain ⟨r', l'⟩ := hd
      rcases List.mem_cons.mp h with heq | hmem
      · injection heq with h1 h2
        subst h1
        subst h2
        simp [roomLookup]
      · by_cases hrk : r' = k
        · exfalso
          subst hrk
          have : r' ∈ rest.map Prod.fst := List.mem_map.mpr ⟨(r', l), hmem, rfl⟩
          exact (List.nodup_cons.mp (by simpa using hnd)).1 this
        · rw [roomLookup, if_neg hrk]
          exact ih (List.nodup_cons.mp (by simpa using hnd)).2 hmem

theorem byRoom_eq_foldl (ps : List (ℕ × PlayerState)) :
    byRoom ps = ps.foldl (fun a q => insertByRoom (roomKey q.2) q a) [] := rfl

/-- The state reached when "eve" connects with a truthy handshake `auth.room`
whose `String()` image is `""` (e.g. `[]`) and "alice" connects normally. -/
def sEmptyRoom : ServerState :=
  { conns := [(1, ⟨"", some "eve", none, none⟩),
              (2, ⟨"default", some "alice", none, none⟩)],
    players := [(1, newPlayer 1 "eve" ""), (2, newPlayer 2 "alice" "default")],
    activeNicknames := [(1, "eve"), (2, "alice")] }

/-- C3 counterexample: a truthy handshake value stringifying to `""` (such
as `auth.room = []`) makes the empty room name reachable; the game loop's
`p.room || 'default'` fallback then folds that player into the `"default"`
partition, so the snapshot emitted to room "default" contains an entry whose
`room` field is `""` ≠ `"default"` — the claimed exactness fails. -/
theorem gameState_empty_room_leaks :
    runEvents initState
        [.connect 1 (some ⟨true, ""⟩), .register 1 "eve",
         .connect 2 none, .register 2 "alice"] = some sEmptyRoom ∧
      tick sEmptyRoom =
        [.toRoom "default"
          (.gameState [(1, newPlayer 1 "eve" ""), (2, newPlayer 2 "alice" "default")])] ∧
      (1, newPlayer 1 "eve" "") ∈
        [(1, newPlayer 1 "eve" ""), (2, newPlayer 2 "alice" "default")] ∧
      (newPlayer 1 "eve" "").room ≠ "default" := by
  exact ⟨by decide, by decide, by decide, by decide⟩

/-- C3 amended: each tick's `gameState` snapshot emitted for key R contains
exactly the player entries whose partition key — `p.room`, or `"default"`
when `p.room` is the empty string (`p.room || 'default'`) — equals R, and
every admitted player appears in the snapshot emitted for its own partition
key.  So exactness in terms of the raw `room` field holds for every room
except that players whose room is the empty string are folded into the
`"default"` snapshot. -/
theorem gameState_snapshot_roomKey (s : ServerState) :
    (∀ R st, Out.toRoom R (.gameState st) ∈ tick s →
        ∀ q : ℕ × PlayerState, q ∈ st ↔ (q ∈ s.players ∧ roomKey q.2 = R)) ∧
      (∀ q : ℕ × PlayerState, q ∈ s.players →
        ∃ st, Out.toRoom (roomKey q.2) (.gameState st) ∈ tick s ∧ q ∈ st) := by
  constructor
  · intro R st hmem q
    obtain ⟨⟨r0, l0⟩, hrl, heq⟩ := List.mem_map.mp hmem
    simp only [Out.toRoom.injEq, Msg.gameState.injEq] at heq
    rw [heq.1, heq.2] at hrl
    have hlk : roomLookup R (byRoom s.players) = some st :=
      roomLookup_of_mem_nodup (byRoom_keys_nodup _) hrl
    have hgd := roomLookup_foldl_getD s.players [] R
    rw [← byRoom_eq_foldl, hlk] at hgd
    simp only [Option.getD_some, roomLookup, List.nil_append] at hgd
    subst hgd
    constructor
    · intro hq
      have hq2 := List.mem_filter.mp hq
      refine ⟨hq2.1, ?_⟩
      have hb := hq2.2
      rwa [beq_iff_eq] at hb
    · rintro ⟨hq, hkey⟩
      exact List.mem_filter.mpr ⟨hq, by rw [beq_iff_eq]; exact hkey⟩
  · intro q hq
    have hfm : q ∈ s.players.filter (fun p => roomKey p.2 == roomKey q.2) :=
      List.mem_filter.mpr ⟨hq, by rw [beq_iff_eq]⟩
    have hne : s.players.filter (fun p => roomKey p.2 == roomKey q.2) ≠ [] :=
      List.ne_nil_of_mem hfm
    have hnn : roomLookup (roomKey q.2) (byRoom s.players) ≠ none := by
      intro hnone
      rw [byRoom_eq_foldl] at hnone
      exact hne (roomLookup_foldl_none s.players [] (roomKey q.2) |>.mp hnone).2
    obtain ⟨st, hst⟩ := Option.ne_none_iff_exists'.mp hnn
    have hgd := roomLookup_foldl_getD s.players [] (roomKey q.2)
    rw [← byRoom_eq_foldl, hst] at hgd
    simp only [Option.getD_some, roomLookup, List.nil_append] at hgd
    refine ⟨st, List.mem_map.mpr ⟨(roomKey q.2, st), roomLookup_mem hst, rfl⟩, ?_⟩
    rw [hgd]
    exact hfm

/-- C3 amended witness: in the one-player state, the tick's single snapshot
for key "default" contains exactly alice, and alice appears in the snapshot
emitted for her own partition key. -/
theorem gameState_snapshot_roomKey_witness :
    ((1, newPlayer 1 "alice" "default") ∈ [(1, newPlayer 1 "alice" "default")] ↔
        ((1, newPlayer 1 "alice" "default") ∈ sOnePlayer.players ∧
          roomKey (newPlayer 1 "alice" "default") = "default")) ∧
      (∃ st, Out.toRoom (roomKey (newPlayer 1 "alice" "default")) (.gameState st) ∈
          tick sOnePlayer ∧ (1, newPlayer 1 "alice" "default") ∈ st) := by
  have h := gameState_snapshot_roomKey sOnePlayer
  exact ⟨h.1 "default" [(1, newPlayer 1 "alice" "default")] (by decide) _,
    h.2 (1, newPlayer 1 "alice" "default") (by decide)⟩

-- ## C4

/-- The subsequence of `playerMove` arrival times that pass the rate-limit
guard, given the current `socket.lastMoveAt`; the guard is exactly the
source's `rateLimited`, and an accepted time becomes the new `lastMoveAt`. -/
def acceptedTimes (last : Option ℚ) : List ℚ → List ℚ
  | [] => []
  | t :: ts =>
      if rateLimited last t then acceptedTimes last ts
      else t :: acceptedTimes (some t) ts

theorem acceptedTimes_chain (ts : List ℚ) (hpos : ∀ t ∈ ts, 0 < t) :
    ∀ t0 : ℚ, 0 < t0 →
      List.Chain (fun a b => a + 1000 / 30 ≤ b) t0 (acceptedTimes (some t0) ts) := by
  induction ts with
  | nil => intro t0 h0; exact List.Chain.nil
  | cons t ts ih =>
      intro t0 h0
      have hpt : 0 < t := hpos t (List.mem_cons_self _ _)
      have hpos' : ∀ u ∈ ts, 0 < u := fun u hu => hpos u (List.mem_cons_of_mem _ hu)
      rw [acceptedTimes]
      cases hrl : rateLimited (some t0) t
      · rw [if_neg (by simp [hrl])]
        refine List.Chain.cons ?_ (ih hpos' t hpt)
        have hb : (t0 != 0) = true := by
          simp [bne_iff_ne]
          exact ne_of_gt h0
        rw [rateLimited, hb, Bool.true_and, decide_eq_false_iff_not, MAX_MOVE_RATE] at hrl
        linarith [not_lt.mp hrl]
      · rw [if_pos (by simp [hrl])]
        exact ih hpos' t0 h0

theorem acceptedTimes_chain_none (ts : List ℚ) (hpos : ∀ t ∈ ts, 0 < t) :
    List.Chain' (fun a b => a + 1000 / 30 ≤ b) (acceptedTimes none ts) := by
  cases ts with
  | nil => simp [acceptedTimes]
  | cons t ts =>
      have : acceptedTimes none (t :: ts) = t :: acceptedTimes (some t) ts := by
        rw [acceptedTimes, if_neg (by simp [rateLimited])]
      rw [this]
      exact acceptedTimes_chain ts
        (fun u hu => hpos u (List.mem_cons_of_mem _ hu)) t
        (hpos t (List.mem_cons_self _ _))

theorem filter_length_mono {p q : ℚ → Bool} (l : List ℚ)
    (h : ∀ x ∈ l, p x = true → q x = true) :
    (l.filter p).length ≤ (l.filter q).length := by
  induction l with
  | nil => simp
  | cons a l ih =>
      have h' : ∀ x ∈ l, p x = true → q x = true :=
        fun x hx => h x (List.mem_cons_of_mem _ hx)
      have ihl := ih h'
      cases hpa : p a
      · cases hqa : q a
        · simpa [List.filter_cons, hpa, hqa] using ihl
        · simp only [List.filter_cons, hpa, hqa, Bool.false_eq_true, if_false,
            if_true, List.length_cons]
          omega
      · have hqa : q a = true := h a (List.mem_cons_self _ _) hpa
        simp only [List.filter_cons, hpa, hqa, if_true, List.length_cons]
        omega

theorem chain_forall_le {t0 : ℚ} {l : List ℚ}
    (h : List.Chain (fun a b => a + 1000 / 30 ≤ b) t0 l) :
    ∀ x ∈ l, t0 + 1000 / 30 ≤ x := by
  induction l generalizing t0 with
  | nil => intro x hx; cases hx
  | cons b l ih =>
      obtain ⟨hab, hbl⟩ := List.chain_cons.mp h
      intro x hx
      rcases List.mem_cons.mp hx with rfl | hx2
      · exact hab
      · have := ih hbl x hx2
        linarith

theorem gap_window : ∀ l : List ℚ,
    List.Chain' (fun a b => a + 1000 / 30 ≤ b) l →
    ∀ (T : ℚ) (n : ℕ),
      (l.filter (fun t => decide (T ≤ t) &&
        decide (t < T + (n : ℚ) * (1000 / 30)))).length ≤ n := by
  intro l
  induction l with
  | nil => intro _ T n; simp
  | cons a l ih =>
      intro hch T n
      have hc : List.Chain (fun a b => a + 1000 / 30 ≤ b) a l := hch
      have hch' : List.Chain' (fun a b => a + 1000 / 30 ≤ b) l := List.Chain'.tail hch
      by_cases hPa : T ≤ a ∧ a < T + (n : ℚ) * (1000 / 30)
      · have hn : n ≠ 0 := by
          rintro rfl
          obtain ⟨h1, h2⟩ := hPa
          norm_num at h2
          linarith
        obtain ⟨m, rfl⟩ : ∃ m, n = m + 1 := ⟨n - 1, by omega⟩
        rw [List.filter_cons, if_pos (by
          simp only [Bool.and_eq_true, decide_eq_true_eq]
          refine ⟨hPa.1, ?_⟩
          have h2 := hPa.2
          push_cast at h2 ⊢
          linarith)]
        rw [List.length_cons]
        have hmono : (l.filter (fun t => decide (T ≤ t) &&
              decide (t < T + ((m + 1 : ℕ) : ℚ) * (1000 / 30)))).length ≤
            (l.filter (fun t => decide (T + 1000 / 30 ≤ t) &&
              decide (t < (T + 1000 / 30) + (m : ℚ) * (1000 / 30)))).length := by
          apply filter_length_mono
          intro x hx hpx
          simp only [Bool.and_eq_true, decide_eq_true_eq] at hpx ⊢
          have hxa := chain_forall_le hc x hx
          obtain ⟨hp1, hp2⟩ := hpx
          constructor
          · linarith [hPa.1]
          · push_cast at hp2 ⊢
            linarith
        have ihm := ih hch' (T + 1000 / 30) m
        omega
      · rw [List.filter_cons, if_neg (by simpa using hPa)]
        exact ih hch' T n

/-- C4: (i) a `playerMove` arriving less than `1000/30` ms after the
previous accepted one (recorded in `socket.lastMoveAt`) is silently
dropped — the state, the sender's PlayerState included, is unchanged and
nothing is emitted; (ii) consequently, in any run of arrival times, any
1000 ms window contains at most 30 accepted updates. -/
theorem playerMove_rate_limit :
    (∀ (s : ServerState) (sid : ℕ) (c : ConnState) (now t : ℚ) (data : MoveData),
        getEntry sid s.conns = some c → c.lastMoveAt = some t → 0 < t →
        now - t < 1000 / 30 →
        step s (.playerMove sid now data) = some (s, [])) ∧
      (∀ ts : List ℚ, (∀ t ∈ ts, 0 < t) → ∀ T : ℚ,
        ((acceptedTimes none ts).filter
            (fun t => decide (T ≤ t) && decide (t < T + 1000))).length ≤ 30) := by
  constructor
  · intro s sid c now t data hc hlast ht hlt
    have hrl : rateLimited c.lastMoveAt now = true := by
      rw [hlast, rateLimited]
      simp only [MAX_MOVE_RATE, Bool.and_eq_true, bne_iff_ne, decide_eq_true_eq]
      exact ⟨ne_of_gt ht, hlt⟩
    simp [step, hc, hrl]
  · intro ts hpos T
    have hch := acceptedTimes_chain_none ts hpos
    have h := gap_window (acceptedTimes none ts) hch T 30
    have harith : T + ((30 : ℕ) : ℚ) * (1000 / 30) = T + 1000 := by norm_num
    rw [show (fun t : ℚ => decide (T ≤ t) &&
        decide (t < T + ((30 : ℕ) : ℚ) * (1000 / 30))) =
        (fun t : ℚ => decide (T ≤ t) && decide (t < T + 1000)) from by
      funext t
      rw [harith]] at h
    exact h

/-- C4 witness: a move 10 ms after the accepted move at time 50 is dropped
with the state unchanged, and a concrete accepted-times window count. -/
theorem playerMove_rate_limit_witness :
    step sOnePlayerMoved (.playerMove 1 60 overshootData) = some (sOnePlayerMoved, []) ∧
      ((acceptedTimes none [1, 2]).filter
          (fun t => decide ((0 : ℚ) ≤ t) && decide (t < 0 + 1000))).length ≤ 30 := by
  constructor
  · exact playerMove_rate_limit.1 sOnePlayerMoved 1
      ⟨"default", some "alice", some 50, none⟩ 60 50 overshootData rfl rfl
      (by norm_num) (by norm_num)
  · refine playerMove_rate_limit.2 [1, 2] ?_ 0
    intro t ht
    fin_cases ht <;> norm_num

-- ## C9

/-- C9: for a `playerMove` handled in any reachable state, the sender's
stored nickname, room, cosmetic colors and hatId are the same after the
handler as before it (only position, rotation and the two flags change).
The nickname is preserved because `p.nickname = socket.nickname` holds in
every reachable state and the handler re-copies `socket.nickname`. -/
theorem playerMove_frame {s : ServerState} {sid : ℕ} {now : ℚ} {data : MoveData}
    {s' : ServerState} {out : List Out} {p p' : PlayerState}
    (hreach : Reachable s)
    (hp : getEntry sid s.players = some p)
    (hstep : step s (.playerMove sid now data) = some (s', out))
    (hp' : getEntry sid s'.players = some p') :
    p'.nickname = p.nickname ∧ p'.room = p.room ∧ p'.colors = p.colors ∧
      p'.hatId = p.hatId := by
  have hinv := stInv_reachable hreach
  simp only [step] at hstep
  cases hcs : getEntry sid s.conns with
  | none =>
      rw [hcs] at hstep
      simp only [Option.some.injEq, Prod.mk.injEq] at hstep
      obtain ⟨rfl, rfl⟩ := hstep
      rw [hp] at hp'
      injection hp' with hp'
      subst hp'
      exact ⟨rfl, rfl, rfl, rfl⟩
  | some c =>
      rw [hcs] at hstep
      cases hrl : rateLimited c.lastMoveAt now
      · simp only [hrl, Bool.false_eq_true, if_false, hp] at hstep
        cases hna : normalizeAngle (data.rotation.getD (.num 0)) with
        | none => rw [hna] at hstep; cases hstep
        | some rot =>
            rw [hna] at hstep
            simp only [Option.some.injEq, Prod.mk.injEq] at hstep
            obtain ⟨rfl, rfl⟩ := hstep
            simp only [getEntry_setEntry_self] at hp'
            injection hp' with hp'
            subst hp'
            obtain ⟨c0, hc0, hn⟩ := hinv sid p hp
            rw [hcs] at hc0
            injection hc0 with hc0
            subst hc0
            exact ⟨hn, rfl, rfl, rfl⟩
      · simp only [hrl, if_true, Option.some.injEq, Prod.mk.injEq] at hstep
        obtain ⟨rfl, rfl⟩ := hstep
        rw [hp] at hp'
        injection hp' with hp'
        subst hp'
        exact ⟨rfl, rfl, rfl, rfl⟩

/-- An in-bounds `playerMove` payload. -/
def frameData : MoveData :=
  { x := some (.num 5), y := some (.num 4), z := some (.num 3),
    rotation := some (.num 0), isMoving := true, isInAir := true }

/-- The stored player after `frameData` is accepted from the fresh alice. -/
def framePlayer : PlayerState :=
  { id := 1, nickname := some "alice", room := "default",
    x := .num 5, y := .num 4, z := .num 3, rotation := .num 0,
    isMoving := true, isInAir := some true, colors := defaultColors, hatId := none }

/-- The state after `frameData` is accepted from socket 1 at time 7. -/
def sFrameMoved : ServerState :=
  { conns := [(1, ⟨"default", some "alice", some 7, none⟩)],
    players := [(1, framePlayer)],
    activeNicknames := [(1, "alice")] }

/-- C9 witness: in the reachable one-player state, an accepted move leaves
nickname, room, colors and hatId exactly as they were at registration. -/
theorem playerMove_frame_witness :
    runEvents initState [.connect 1 none, .register 1 "alice"] = some sOnePlayer ∧
      (framePlayer.nickname = (newPlayer 1 "alice" "default").nickname ∧
        framePlayer.room = (newPlayer 1 "alice" "default").room ∧
        framePlayer.colors = (newPlayer 1 "alice" "default").colors ∧
        framePlayer.hatId = (newPlayer 1 "alice" "default").hatId) := by
  have hrun : runEvents initState [.connect 1 none, .register 1 "alice"] =
      some sOnePlayer := by decide
  have hnorm : normQ 0 = 0 := normQ_of_mem (by linarith [piQ_pos]) (le_of_lt piQ_pos)
  have hstep : step sOnePlayer (.playerMove 1 7 frameData) = some (sFrameMoved, []) := by
    simp [step, sOnePlayer, sFrameMoved, framePlayer, frameData, getEntry, rateLimited,
      normalizeAngle, numOr0, setEntry, newPlayer, hnorm, clamp, toNumOr0, jsMin, jsMax,
      worldXZ, worldYMin, worldYMax]
    norm_num
  exact ⟨hrun, @playerMove_frame sOnePlayer 1 7 frameData sFrameMoved []
    (newPlayer 1 "alice" "default") framePlayer ⟨_, hrun⟩ (by rfl) hstep (by rfl)⟩
